import Mathlib

set_option maxRecDepth 4000

/-
Shallow embedding of the multi-agent orchestration core of the repository:
  src/src/multi_agent/agents.py        (AgentRole, get_agent_config)
  src/src/multi_agent/orchestrator.py  (AgentExecutor, WorkflowOrchestrator,
                                        Workflow, WorkflowStep, WorkflowState)

Modelling conventions:
- The two external backends (Azure OpenAI chat completion and the knowledge
  search client) are abstracted by an oracle `Oracle : Nat -> BackendReply`
  giving the outcome of the k-th chat-completion call.  A reply either raises
  an exception (the `except Exception` branch of AgentExecutor.execute) or
  returns a content string together with the result of `json.loads(content)`.
  The parse result is carried in the reply because the orchestrator never
  re-parses; only the fields it actually reads are represented.
- Parsed JSON objects are modelled by `ParsedJson`, a record of the keys the
  orchestrator reads (`workflow_steps`, `additional_work_needed`,
  `ready_for_output`) plus a flag `other_keys` recording whether the dict has
  further keys; Python dict truthiness is `ParsedJson.isTruthy`.  Values whose
  key is absent are `none`; a JSON value that is not an object is outside the
  modelled fragment (the Python code would raise AttributeError on it).
- Python dicts built by the orchestrator (the executor result and the context
  passed to a step) are records / association lists; a key that Python's
  failure branch omits is an `Option` that is `none`.
- Timestamps (`started_at`, `completed_at`, `created_at`) and the unused
  `input_data` field carry no information read by any control path and are
  omitted.  The `stream_callback` is advisory only (it does not influence any
  state transition) and is omitted.
- Mutation is modelled by explicit state passing: each operation takes and
  returns the `Workflow` together with the running call counter.
- The `while` loop of run_workflow is modelled by structural recursion on the
  fuel `max_iterations - iteration_count`; since every pass increments
  `iteration_count` exactly once and nothing else changes it, this fuel is
  exactly the number of passes the Python guard admits (the lemma
  run_loop_aux_fuel_irrelevant below makes this exact).
-/

/-- AgentRole enum from agents.py. -/
inductive AgentRole where
  | ORCHESTRATOR
  | TRIAGE
  | RESEARCH
  | COMPLIANCE
  | REVIEW
  | OUTPUT
deriving DecidableEq, Repr

/-- The `.value` of each enum member (agents.py lines 9-14). -/
def AgentRole.value : AgentRole → String
  | .ORCHESTRATOR => "orchestrator"
  | .TRIAGE => "triage"
  | .RESEARCH => "research"
  | .COMPLIANCE => "compliance"
  | .REVIEW => "review"
  | .OUTPUT => "output"

/-- Lookup of an enum member by NAME, Python `AgentRole[agent_name]`;
`none` models the `KeyError` branch. -/
def lookupRole : String → Option AgentRole
  | "ORCHESTRATOR" => some .ORCHESTRATOR
  | "TRIAGE" => some .TRIAGE
  | "RESEARCH" => some .RESEARCH
  | "COMPLIANCE" => some .COMPLIANCE
  | "REVIEW" => some .REVIEW
  | "OUTPUT" => some .OUTPUT
  | _ => none

/-- The `can_query_knowledge` flag of get_agent_config (agents.py lines 225-271):
true exactly for TRIAGE, RESEARCH and COMPLIANCE. -/
def can_query_knowledge : AgentRole → Bool
  | .TRIAGE => true
  | .RESEARCH => true
  | .COMPLIANCE => true
  | _ => false

/-- One entry of a planner's `workflow_steps` list; fields read via
`step_info.get("agent", "RESEARCH")` and `step_info.get("instruction", "")`. -/
structure StepInfo where
  agent : Option String := none
  instruction : Option String := none
deriving DecidableEq, Repr

/-- One entry of a reviewer's `additional_work_needed` list; fields read via
`work_item.get("agent", "RESEARCH")` and `work_item.get("task", "")`. -/
structure WorkItem where
  agent : Option String := none
  task : Option String := none
deriving DecidableEq, Repr

/-- A parsed JSON object (`json.loads` result), restricted to the keys the
orchestrator reads.  `other_keys` records whether the dict holds any further
keys (this only feeds Python truthiness). -/
structure ParsedJson where
  workflow_steps : Option (List StepInfo) := none
  additional_work_needed : Option (List WorkItem) := none
  ready_for_output : Option Bool := none
  other_keys : Bool := false
deriving DecidableEq, Repr

/-- Python truthiness of the parsed dict: nonempty. -/
def ParsedJson.isTruthy (p : ParsedJson) : Bool :=
  p.workflow_steps.isSome || p.additional_work_needed.isSome ||
    p.ready_for_output.isSome || p.other_keys

/-- Outcome of one chat-completion call, as seen through
AgentExecutor.execute: either the client raises, or it returns message
content (paired with the `json.loads` result for that content). -/
inductive BackendReply where
  | raises (msg : String)
  | replies (content : String) (parsed : Option ParsedJson)
deriving DecidableEq, Repr

/-- The oracle: outcome of the k-th chat-completion call of the process. -/
abbrev Oracle := Nat → BackendReply

/-- The dict returned by AgentExecutor.execute (orchestrator.py lines
137-158).  Keys absent from a branch's dict are `none`. -/
structure ExecResult where
  agent : String
  raw_response : Option String := none
  parsed : Option ParsedJson := none
  success : Bool
  error : Option String := none
deriving DecidableEq, Repr

/-- A value stored in the context dict handed to a step: either a previous
step's `output_data` (an executor result dict) or the plain `user_request`
string. -/
inductive CtxVal where
  | output (r : ExecResult)
  | text (s : String)
deriving DecidableEq, Repr

/-- Context dict: association list with Python-dict key semantics
(`dict_set` below). -/
abbrev Ctx := List (String × CtxVal)

/-- AgentExecutor.execute (orchestrator.py lines 89-158).  Message assembly
(system prompt, serialized context, knowledge-base snippets) only feeds the
backend call, which the oracle abstracts, so only the result construction is
modelled: on a raise, the failure dict; otherwise the success dict whose
`parsed` entry is the `json.loads` outcome (`none` on JSONDecodeError). -/
def AgentExecutor.execute (agent_role : AgentRole) (instruction : String)
    (context : Ctx) (knowledge_query : Option String)
    (reply : BackendReply) : ExecResult :=
  match instruction, context, knowledge_query, reply with
  | _, _, _, .raises e =>
      { agent := agent_role.value, success := false, error := some e }
  | _, _, _, .replies content parsed =>
      { agent := agent_role.value, raw_response := some content,
        parsed := parsed, success := true }

/-- WorkflowStep (orchestrator.py lines 25-36), minus timestamps and the
never-read `input_data`. `output_data` is `none` for the `{}` default and
`some r` once assigned the executor result dict `r`. -/
structure WorkflowStep where
  step_id : Nat
  agent : AgentRole
  instruction : String
  status : String := "pending"
  output_data : Option ExecResult := none
  error : Option String := none
deriving DecidableEq, Repr

/-- One conversation_history entry (orchestrator.py lines 257-263), minus the
timestamp. -/
structure ConvEntry where
  step_id : Nat
  agent : String
  instruction : String
  result : ExecResult
deriving DecidableEq, Repr

/-- WorkflowState enum (orchestrator.py lines 16-22). -/
inductive WorkflowState where
  | PENDING
  | IN_PROGRESS
  | AWAITING_REVIEW
  | NEEDS_REVISION
  | COMPLETED
  | FAILED
deriving DecidableEq, Repr

/-- The `.value` of each WorkflowState member. -/
def WorkflowState.value : WorkflowState → String
  | .PENDING => "pending"
  | .IN_PROGRESS => "in_progress"
  | .AWAITING_REVIEW => "awaiting_review"
  | .NEEDS_REVISION => "needs_revision"
  | .COMPLETED => "completed"
  | .FAILED => "failed"

/-- Workflow (orchestrator.py lines 39-50), minus `created_at`. -/
structure Workflow where
  workflow_id : String
  user_request : String
  state : WorkflowState := .PENDING
  steps : List WorkflowStep := []
  conversation_history : List ConvEntry := []
  final_output : Option String := none
  iteration_count : Nat := 0
  max_iterations : Nat := 5
deriving DecidableEq, Repr

/-- WorkflowOrchestrator.create_workflow (lines 173-181); the uuid-based id is
a parameter since it carries no information the orchestrator reads. -/
def create_workflow (workflow_id : String) (user_request : String) : Workflow :=
  { workflow_id := workflow_id, user_request := user_request }

/-- Agent-name resolution shared by _plan_workflow (lines 196-200) and
_add_revision_steps (lines 290-294): `AgentRole[name.upper()]` with the
KeyError handler substituting RESEARCH; an absent key defaults to
"RESEARCH". -/
def resolve_agent (name : Option String) : AgentRole :=
  match lookupRole ((name.getD "RESEARCH").toUpper) with
  | some r => r
  | none => AgentRole.RESEARCH

/-- The fixed default plan of _plan_workflow (lines 210-216). -/
def default_plan_steps (w : Workflow) : List WorkflowStep :=
  [ { step_id := 1, agent := .TRIAGE,
      instruction := "Classify and prioritize: " ++ w.user_request },
    { step_id := 2, agent := .RESEARCH,
      instruction := "Research relevant data for: " ++ w.user_request },
    { step_id := 3, agent := .COMPLIANCE,
      instruction := "Check compliance requirements for: " ++ w.user_request },
    { step_id := 4, agent := .REVIEW,
      instruction := "Review all findings and identify gaps" },
    { step_id := 5, agent := .OUTPUT,
      instruction := "Create final response for user" } ]

/-- WorkflowOrchestrator._plan_workflow (lines 183-218).  The guard is
`result["success"] and result.get("parsed")`, i.e. success together with a
truthy parsed dict; otherwise the default plan.  Step ids count from 1. -/
def plan_workflow (o : Oracle) (n : Nat) (w : Workflow) :
    List WorkflowStep × Nat :=
  let result := AgentExecutor.execute .ORCHESTRATOR
    ("Plan a workflow for this user request: " ++ w.user_request) [] none (o n)
  let steps :=
    match result.parsed with
    | some plan =>
        if result.success && plan.isTruthy then
          (List.enumFrom 1 (plan.workflow_steps.getD [])).map (fun q =>
            { step_id := q.1, agent := resolve_agent q.2.agent,
              instruction := q.2.instruction.getD "" })
        else default_plan_steps w
    | none => default_plan_steps w
  (steps, n + 1)

/-- Python dict assignment `d[k] = v`: replace in place when the key exists,
else append. -/
def dict_set (d : Ctx) (k : String) (v : CtxVal) : Ctx :=
  if d.any (fun q => q.1 == k) then
    d.map (fun q => if q.1 == k then (k, v) else q)
  else d ++ [(k, v)]

/-- Python dict lookup `d[k]` / key membership. -/
def ctx_get (d : Ctx) (k : String) : Option CtxVal :=
  (d.find? (fun q => q.1 == k)).map (fun q => q.2)

/-- Context assembly of _execute_step (lines 226-232): every step with a
smaller step_id and truthy `output_data` contributes its output under its
agent-role key, then `user_request` is added. -/
def gather_context (w : Workflow) (step : WorkflowStep) : Ctx :=
  let base := w.steps.foldl
    (fun ctx prev =>
      if prev.step_id < step.step_id then
        match prev.output_data with
        | some r => dict_set ctx prev.agent.value (CtxVal.output r)
        | none => ctx
      else ctx) []
  dict_set base "user_request" (CtxVal.text w.user_request)

/-- The executor call made by _execute_step (lines 234-245): context from
gather_context, `knowledge_query = user_request` when the agent may query the
knowledge base. -/
def step_exec_result (o : Oracle) (n : Nat) (w : Workflow)
    (step : WorkflowStep) : ExecResult :=
  AgentExecutor.execute step.agent step.instruction (gather_context w step)
    (if can_query_knowledge step.agent then some w.user_request else none)
    (o n)

/-- The step update of _execute_step (lines 249-254). -/
def step_after (result : ExecResult) (step : WorkflowStep) : WorkflowStep :=
  if result.success then
    { step with status := "completed", output_data := some result }
  else
    { step with
      status := "failed",
      error := some (result.error.getD "Unknown error") }

/-- The conversation_history entry of _execute_step (lines 257-263). -/
def step_entry (result : ExecResult) (step : WorkflowStep) : ConvEntry :=
  { step_id := step.step_id, agent := step.agent.value,
    instruction := step.instruction, result := result }

/-- WorkflowOrchestrator._execute_step (lines 220-265) acting on the step at
list index `i` (the Python call site always passes an element of
`workflow.steps`, here identified by its index).  The transient
`status = "in_progress"` assignment is invisible (nothing reads the status
between the two assignments) and is collapsed. -/
def execute_step (o : Oracle) (n : Nat) (w : Workflow) (i : Nat) :
    Workflow × Nat :=
  match w.steps.get? i with
  | none => (w, n)
  | some step =>
    let result := step_exec_result o n w step
    ({ w with
        steps := w.steps.set i (step_after result step),
        conversation_history :=
          w.conversation_history ++ [step_entry result step] }, n + 1)

/-- The guard chain shared by _check_if_revision_needed (lines 269-272) and
_add_revision_steps (lines 285-288): a step passes when its agent is REVIEW,
its `output_data` is truthy, and `output_data.get("parsed", {})` is truthy;
the truthy parsed dict is returned. -/
def review_truthy_parsed (s : WorkflowStep) : Option ParsedJson :=
  if s.agent = AgentRole.REVIEW then
    match s.output_data with
    | some od =>
        match od.parsed with
        | some p => if p.isTruthy then some p else none
        | none => none
    | none => none
  else none

/-- The verdict computed from a truthy parsed reviewer output (lines 274-276):
`bool(additional_work_needed) or not ready_for_output` with defaults `[]` and
`True`. -/
def step_revision_verdict (p : ParsedJson) : Bool :=
  let additional_work := p.additional_work_needed.getD []
  let ready_for_output := p.ready_for_output.getD true
  !additional_work.isEmpty || !ready_for_output

/-- The scan of _check_if_revision_needed: the FIRST step passing the guard
chain determines the verdict (the Python `return` inside the `for`). -/
def check_go : List WorkflowStep → Bool
  | [] => false
  | s :: rest =>
    match review_truthy_parsed s with
    | some p => step_revision_verdict p
    | none => check_go rest

/-- WorkflowOrchestrator._check_if_revision_needed (lines 267-277). -/
def check_if_revision_needed (w : Workflow) : Bool := check_go w.steps

/-- The accumulation loop of _add_revision_steps (lines 285-301): every step
passing the guard chain contributes one new step per work item, with
`next_step_id` threaded through. -/
def revision_work_steps : List WorkflowStep → Nat → List WorkflowStep
  | [], _ => []
  | s :: rest, next_id =>
    match review_truthy_parsed s with
    | some p =>
      let items := p.additional_work_needed.getD []
      let new := (List.enumFrom next_id items).map (fun q =>
        ({ step_id := q.1, agent := resolve_agent q.2.agent,
           instruction := q.2.task.getD "" } : WorkflowStep))
      new ++ revision_work_steps rest (next_id + items.length)
    | none => revision_work_steps rest next_id

/-- WorkflowOrchestrator._add_revision_steps (lines 279-311): the work steps,
then one extra REVIEW step when any work was added. -/
def add_revision_steps (w : Workflow) : List WorkflowStep :=
  let new_steps := revision_work_steps w.steps (w.steps.length + 1)
  if new_steps.isEmpty then []
  else new_steps ++
    [ { step_id := w.steps.length + 1 + new_steps.length,
        agent := AgentRole.REVIEW,
        instruction :=
          "Review the additional findings and determine if analysis is complete" } ]

/-- The inner `for step in workflow.steps` of run_workflow (lines 327-342):
visit the given indices in order, executing a step exactly when its current
status is "pending". -/
def exec_steps (o : Oracle) : List Nat → Workflow × Nat → Workflow × Nat
  | [], p => p
  | i :: l, p =>
    match p.1.steps.get? i with
    | some step =>
      if step.status == "pending" then
        exec_steps o l (execute_step o p.2 p.1 i)
      else exec_steps o l p
    | none => exec_steps o l p

/-- One pass of the `while` loop of run_workflow (lines 324-353): increment
`iteration_count`, execute every pending step in position order, then either
append revision steps and set NEEDS_REVISION (the `continue` case, flag true)
or stop (the `break` case, flag false). -/
def loop_body (o : Oracle) (w : Workflow) (n : Nat) :
    Workflow × Nat × Bool :=
  let w1 := { w with iteration_count := w.iteration_count + 1 }
  let p := exec_steps o (List.range w1.steps.length) (w1, n)
  if check_if_revision_needed p.1 then
    ({ p.1 with
        steps := p.1.steps ++ add_revision_steps p.1,
        state := WorkflowState.NEEDS_REVISION }, p.2, true)
  else (p.1, p.2, false)

/-- The `while workflow.iteration_count < workflow.max_iterations` loop,
driven by fuel; the guard is re-checked before every pass exactly as in the
source. -/
def run_loop_aux (o : Oracle) : Nat → Workflow × Nat → Workflow × Nat
  | 0, p => p
  | fuel + 1, p =>
    if p.1.iteration_count < p.1.max_iterations then
      let r := loop_body o p.1 p.2
      if r.2.2 then run_loop_aux o fuel (r.1, r.2.1) else (r.1, r.2.1)
    else p

/-- The run loop with its exact pass budget: each pass increments
`iteration_count` by one and nothing else changes it, so
`max_iterations - iteration_count` passes are exactly what the guard admits
(run_loop_aux_fuel_irrelevant below). -/
def run_loop (o : Oracle) (w : Workflow) (n : Nat) : Workflow × Nat :=
  run_loop_aux o (w.max_iterations - w.iteration_count) (w, n)

/-- `output_data.get("raw_response", "")` (lines 358 and 368). -/
def output_raw (od : Option ExecResult) : String :=
  match od with
  | some r => r.raw_response.getD ""
  | none => ""

/-- The forced final OUTPUT step of run_workflow (lines 361-365). -/
def forced_output_step (w : Workflow) : WorkflowStep :=
  { step_id := w.steps.length + 1, agent := AgentRole.OUTPUT,
    instruction := "Create final response synthesizing all agent findings" }

/-- The final-output block of run_workflow (lines 356-368): take the last
completed OUTPUT step's raw response, else append and execute a forced OUTPUT
step and take its raw response. -/
def finalize_output (o : Oracle) (w : Workflow) (n : Nat) : Workflow × Nat :=
  let output_steps := w.steps.filter
    (fun s => s.agent == AgentRole.OUTPUT && s.status == "completed")
  match output_steps.getLast? with
  | some st => ({ w with final_output := some (output_raw st.output_data) }, n)
  | none =>
    let output_step := forced_output_step w
    let w1 := { w with steps := w.steps ++ [output_step] }
    let p := execute_step o n w1 w.steps.length
    let st := p.1.steps.get? w.steps.length
    ({ p.1 with final_output := some (match st with
        | some s2 => output_raw s2.output_data
        | none => "") }, p.2)

/-- WorkflowOrchestrator.run_workflow (lines 313-375): set IN_PROGRESS, plan
(unconditionally), run the bounded loop, settle `final_output`, set
COMPLETED. -/
def run_workflow (o : Oracle) (w : Workflow) (n : Nat) : Workflow × Nat :=
  let w0 := { w with state := WorkflowState.IN_PROGRESS }
  let planned := plan_workflow o n w0
  let w1 := { w0 with steps := planned.1 }
  let p := run_loop o w1 planned.2
  let q := finalize_output o p.1 p.2
  ({ q.1 with state := WorkflowState.COMPLETED }, q.2)

/-- The workflow state after each pass of the while loop, in order
(instrumentation of run_loop_aux; same recursion, collecting `r.1`). -/
def run_loop_trace_aux (o : Oracle) : Nat → Workflow × Nat → List Workflow
  | 0, _ => []
  | fuel + 1, p =>
    if p.1.iteration_count < p.1.max_iterations then
      let r := loop_body o p.1 p.2
      if r.2.2 then r.1 :: run_loop_trace_aux o fuel (r.1, r.2.1)
      else [r.1]
    else []

/-- The successive workflow states traversed by run_workflow, in order: after
setting IN_PROGRESS, after planning, after each loop pass, after the loop,
after settling final_output, and the returned state.  Every intermediate
workflow value of the source occurs here or differs from a listed one only in
fields irrelevant to the traced claims. -/
def run_workflow_trace (o : Oracle) (w : Workflow) (n : Nat) : List Workflow :=
  let w0 := { w with state := WorkflowState.IN_PROGRESS }
  let planned := plan_workflow o n w0
  let w1 := { w0 with steps := planned.1 }
  let p := run_loop o w1 planned.2
  let q := finalize_output o p.1 p.2
  w0 :: w1 ::
    (run_loop_trace_aux o (w1.max_iterations - w1.iteration_count)
        (w1, planned.2) ++
      [p.1, q.1, { q.1 with state := WorkflowState.COMPLETED }])

/-- The summary dict of get_workflow_summary (lines 377-389). -/
structure WorkflowSummary where
  workflow_id : String
  user_request : String
  state : String
  iterations : Nat
  steps_executed : Nat
  steps_failed : Nat
  agents_involved : List String
  final_output : Option String
  conversation_history : List ConvEntry
deriving DecidableEq, Repr

/-- WorkflowOrchestrator.get_workflow_summary (lines 377-389); the Python
`list(set(...))` is modelled as deduplication (its order is not read
anywhere). -/
def get_workflow_summary (w : Workflow) : WorkflowSummary :=
  { workflow_id := w.workflow_id,
    user_request := w.user_request,
    state := w.state.value,
    iterations := w.iteration_count,
    steps_executed := (w.steps.filter (fun s => s.status == "completed")).length,
    steps_failed := (w.steps.filter (fun s => s.status == "failed")).length,
    agents_involved := (w.steps.map (fun s => s.agent.value)).dedup,
    final_output := w.final_output,
    conversation_history := w.conversation_history }

/-- Modelled from the spec (section 4.3 `needsRevision`), for comparison with
the source's check_if_revision_needed: inspect the MOST RECENT completed step
whose agent role is REVIEW; true when its parsed output lists unresolved work
items or reports not ready; an absent reviewer step or an unparsed reviewer
output yields false. -/
def spec_needs_revision (w : Workflow) : Bool :=
  match (w.steps.filter
      (fun s => s.agent == AgentRole.REVIEW && s.status == "completed")).getLast? with
  | some s =>
    match s.output_data with
    | some od =>
      match od.parsed with
      | some p => if p.isTruthy then step_revision_verdict p else false
      | none => false
    | none => false
  | none => false

/-- The step that actually backs a context entry: the LAST step (in list
order) with a smaller step_id, truthy output_data, and the given agent-role
key; its output is what the Python dict holds after all overwrites. -/
def last_context_source (w : Workflow) (step : WorkflowStep) (k : String) :
    Option ExecResult :=
  ((w.steps.filter (fun p =>
      decide (p.step_id < step.step_id) && p.output_data.isSome &&
        (p.agent.value == k))).getLast?).bind (fun p => p.output_data)


/-! ### Derived notions used by the verification -/

/-- The immutable identity of a step: position, agent, instruction. -/
def step_key (s : WorkflowStep) : Nat × AgentRole × String :=
  (s.step_id, s.agent, s.instruction)

/-- Workflow fields and step identities that every inner-loop operation
carries over unchanged (the conversation log may only be extended). -/
def wf_carried (w w' : Workflow) : Prop :=
  w'.iteration_count = w.iteration_count ∧
  w'.max_iterations = w.max_iterations ∧
  w'.state = w.state ∧
  w'.user_request = w.user_request ∧
  w'.final_output = w.final_output ∧
  w'.workflow_id = w.workflow_id ∧
  w'.steps.map step_key = w.steps.map step_key ∧
  ∃ t, w'.conversation_history = w.conversation_history ++ t

/-- Number of steps with status "completed". -/
def completed_count (w : Workflow) : Nat :=
  (w.steps.filter (fun s => s.status == "completed")).length

/-- After planning, step ids are exactly 1, 2, ..., length, and every
operation of the run preserves this. -/
def ids_ok (w : Workflow) : Prop :=
  w.steps.map (fun s => s.step_id) = List.range' 1 w.steps.length

/-- An oracle whose every call raises (a permanently failing backend). -/
def raising (o : Oracle) : Prop :=
  ∀ k, ∃ e, o k = BackendReply.raises e

/-! ### Concrete instances used in counterexamples and witnesses -/

/-- A backend that raises on every call. -/
def fail_oracle : Oracle := fun _ => BackendReply.raises "boom"

/-- A fresh example workflow. -/
def wf_example : Workflow :=
  create_workflow "wf_1" "critical system outage affecting tax calculations"

/-- The parsed planner reply of plan_no_steps_oracle: a truthy JSON object
with no workflow_steps key. -/
def plan_no_steps : ParsedJson := { other_keys := true }

/-- A planner backend that replies with a truthy parsed object carrying no
workflow_steps. -/
def plan_no_steps_oracle : Oracle := fun _ =>
  BackendReply.replies "\x7b\x22task_summary\x22: \x22x\x22\x7d" (some plan_no_steps)

/-- A reviewer verdict requesting one more research task. -/
def review_parsed_more_work : ParsedJson :=
  { additional_work_needed :=
      some [{ agent := some "RESEARCH", task := some "dig deeper" }],
    ready_for_output := some false }

/-- A reviewer verdict declaring the analysis ready. -/
def review_parsed_ready : ParsedJson :=
  { additional_work_needed := some [], ready_for_output := some true }

/-- Output dict of the earlier reviewer step. -/
def review_output_1 : ExecResult :=
  { agent := "review", raw_response := some "r1",
    parsed := some review_parsed_more_work, success := true }

/-- Output dict of the later reviewer step. -/
def review_output_2 : ExecResult :=
  { agent := "review", raw_response := some "r2",
    parsed := some review_parsed_ready, success := true }

/-- The earlier completed reviewer step (requests more work). -/
def review_step_a : WorkflowStep :=
  { step_id := 1, agent := .REVIEW, instruction := "a",
    status := "completed", output_data := some review_output_1 }

/-- The later completed reviewer step (declares ready). -/
def review_step_b : WorkflowStep :=
  { step_id := 2, agent := .REVIEW, instruction := "b",
    status := "completed", output_data := some review_output_2 }

/-- A workflow with two completed reviewer steps whose parsed outputs
disagree: the earlier requests more work, the later is ready. -/
def two_review_workflow : Workflow :=
  { workflow_id := "wf_2", user_request := "q",
    steps := [review_step_a, review_step_b] }

/-- Output of the earlier research step. -/
def research_output_a : ExecResult :=
  { agent := "research", raw_response := some "A", success := true }

/-- Output of the later research step. -/
def research_output_b : ExecResult :=
  { agent := "research", raw_response := some "B", success := true }

/-- The earlier completed research step. -/
def research_step_1 : WorkflowStep :=
  { step_id := 1, agent := .RESEARCH, instruction := "x",
    status := "completed", output_data := some research_output_a }

/-- The later completed research step of the same role. -/
def research_step_2 : WorkflowStep :=
  { step_id := 2, agent := .RESEARCH, instruction := "y",
    status := "completed", output_data := some research_output_b }

/-- The step about to execute at position 3. -/
def review_step_3 : WorkflowStep :=
  { step_id := 3, agent := .REVIEW, instruction := "z" }

/-- A workflow with two completed steps of the same agent role before a
third step. -/
def two_research_workflow : Workflow :=
  { workflow_id := "wf_3", user_request := "q",
    steps := [research_step_1, research_step_2, review_step_3] }

/-- A parsed planner reply naming one step for an agent unknown to the
AgentRole enum. -/
def plan_unknown : ParsedJson :=
  { workflow_steps :=
      some [{ agent := some "WIZARD", instruction := some "conjure" }] }

/-- A planner backend replying with plan_unknown. -/
def plan_unknown_oracle : Oracle := fun _ =>
  BackendReply.replies "raw" (some plan_unknown)

/-! ### Generic list helpers -/


theorem list_set_map_congr {α β : Type} (f : α → β) :
    ∀ (l : List α) (i : Nat) (a b : α), l.get? i = some b → f a = f b →
      (l.set i a).map f = l.map f
  | [], _, _, _, h, _ => by simp at h
  | x :: l, 0, a, b, h, hf => by
      have hb : x = b := by simpa using h
      subst hb
      simp [hf]
  | x :: l, i + 1, a, b, h, hf => by
      have h' : l.get? i = some b := by simpa using h
      simp [list_set_map_congr f l i a b h' hf]

theorem list_set_filter_le {α : Type} (p : α → Bool) :
    ∀ (l : List α) (i : Nat) (a : α),
      ((l.set i a).filter p).length ≤ (l.filter p).length + 1
  | [], _, _ => by simp
  | x :: l, 0, a => by
      by_cases hpa : p a = true <;> by_cases hpx : p x = true <;>
        (simp [List.filter_cons, hpa, hpx]; try omega)
  | x :: l, i + 1, a => by
      by_cases hpx : p x = true <;>
        (simp [List.filter_cons, hpx]; exact list_set_filter_le p l i a)

/-! ### Facts about execute_step -/

theorem step_after_key (r : ExecResult) (s : WorkflowStep) :
    step_key (step_after r s) = step_key s := by
  unfold step_after
  split <;> rfl

theorem step_after_status (r : ExecResult) (s : WorkflowStep) :
    (step_after r s).status = (if r.success then "completed" else "failed") := by
  unfold step_after
  split <;> simp_all

theorem execute_step_none {o : Oracle} {n : Nat} {w : Workflow} {i : Nat}
    (h : w.steps.get? i = none) : execute_step o n w i = (w, n) := by
  unfold execute_step
  rw [h]

theorem execute_step_some {o : Oracle} {n : Nat} {w : Workflow} {i : Nat}
    {step : WorkflowStep} (h : w.steps.get? i = some step) :
    execute_step o n w i =
      ({ w with
          steps := w.steps.set i (step_after (step_exec_result o n w step) step),
          conversation_history := w.conversation_history ++
            [step_entry (step_exec_result o n w step) step] }, n + 1) := by
  unfold execute_step
  rw [h]

theorem wf_carried_refl (w : Workflow) : wf_carried w w :=
  ⟨rfl, rfl, rfl, rfl, rfl, rfl, rfl, [], by simp⟩

theorem wf_carried_trans {a b c : Workflow} (h1 : wf_carried a b)
    (h2 : wf_carried b c) : wf_carried a c := by
  obtain ⟨e1, e2, e3, e4, e5, e6, e7, t1, ht1⟩ := h1
  obtain ⟨f1, f2, f3, f4, f5, f6, f7, t2, ht2⟩ := h2
  refine ⟨by omega, by omega, f3.trans e3, f4.trans e4, f5.trans e5,
    f6.trans e6, f7.trans e7, t1 ++ t2, ?_⟩
  rw [ht2, ht1, List.append_assoc]

theorem wf_carried_length {a b : Workflow} (h : wf_carried a b) :
    b.steps.length = a.steps.length := by
  have := congrArg List.length h.2.2.2.2.2.2.1
  simpa using this

theorem execute_step_carried (o : Oracle) (n : Nat) (w : Workflow) (i : Nat) :
    wf_carried w (execute_step o n w i).1 := by
  cases h : w.steps.get? i with
  | none => rw [execute_step_none h]; exact wf_carried_refl w
  | some step =>
    rw [execute_step_some h]
    exact ⟨rfl, rfl, rfl, rfl, rfl, rfl,
      list_set_map_congr step_key _ i _ step h (step_after_key _ _),
      [step_entry (step_exec_result o n w step) step], rfl⟩

theorem execute_step_get?_ne (o : Oracle) (n : Nat) (w : Workflow) (i j : Nat)
    (hne : j ≠ i) : (execute_step o n w i).1.steps.get? j = w.steps.get? j := by
  cases h : w.steps.get? i with
  | none => rw [execute_step_none h]
  | some step =>
    rw [execute_step_some h]
    simp only [List.get?_eq_getElem?]
    exact List.getElem?_set_ne (Ne.symm hne)

/-! ### Facts about exec_steps (the inner `for` loop) -/

theorem exec_steps_carried (o : Oracle) :
    ∀ (l : List Nat) (p : Workflow × Nat), wf_carried p.1 (exec_steps o l p).1
  | [], _ => wf_carried_refl _
  | i :: l, p => by
      unfold exec_steps
      split
      · split
        · exact wf_carried_trans (execute_step_carried o p.2 p.1 i)
            (exec_steps_carried o l _)
        · exact exec_steps_carried o l p
      · exact exec_steps_carried o l p

theorem exec_steps_nonpending (o : Oracle) :
    ∀ (l : List Nat) (p : Workflow × Nat) (j : Nat) (s : WorkflowStep),
      p.1.steps.get? j = some s → s.status ≠ "pending" →
      (exec_steps o l p).1.steps.get? j = some s
  | [], _, _, _, h, _ => h
  | i :: l, p, j, s, h, hs => by
      unfold exec_steps
      split
      case h_1 step heq =>
        split
        case isTrue hpend =>
          have hji : j ≠ i := by
            rintro rfl
            rw [h] at heq
            cases heq
            exact hs (by simpa using hpend)
          refine exec_steps_nonpending o l _ j s ?_ hs
          rw [execute_step_get?_ne o p.2 p.1 i j hji]
          exact h
        case isFalse => exact exec_steps_nonpending o l p j s h hs
      case h_2 => exact exec_steps_nonpending o l p j s h hs

theorem execute_step_cc_hist (o : Oracle) (n : Nat) (w : Workflow) (i : Nat) :
    completed_count (execute_step o n w i).1 + w.conversation_history.length ≤
      completed_count w + (execute_step o n w i).1.conversation_history.length := by
  cases h : w.steps.get? i with
  | none => rw [execute_step_none h]
  | some step =>
    rw [execute_step_some h]
    have h1 := list_set_filter_le (fun s => s.status == "completed")
      w.steps i (step_after (step_exec_result o n w step) step)
    simp only [completed_count, List.length_append, List.length_cons,
      List.length_nil]
    omega

theorem exec_steps_cc_hist (o : Oracle) :
    ∀ (l : List Nat) (p : Workflow × Nat),
      completed_count (exec_steps o l p).1 + p.1.conversation_history.length ≤
        completed_count p.1 + (exec_steps o l p).1.conversation_history.length
  | [], _ => le_refl _
  | i :: l, p => by
      unfold exec_steps
      split
      · split
        · have h1 := execute_step_cc_hist o p.2 p.1 i
          have h2 := exec_steps_cc_hist o l (execute_step o p.2 p.1 i)
          omega
        · exact exec_steps_cc_hist o l p
      · exact exec_steps_cc_hist o l p

/-! ### Facts about planning and revision steps -/

theorem default_plan_steps_ids (w : Workflow) :
    (default_plan_steps w).map (fun s => s.step_id) =
      List.range' 1 (default_plan_steps w).length := rfl

theorem default_plan_steps_status (w : Workflow) :
    ∀ s ∈ default_plan_steps w, s.status = "pending" := by
  intro s hs
  simp only [default_plan_steps, List.mem_cons, List.not_mem_nil, or_false] at hs
  rcases hs with h | h | h | h | h <;> (subst h; rfl)

theorem plan_workflow_calls (o : Oracle) (n : Nat) (w : Workflow) :
    (plan_workflow o n w).2 = n + 1 := by
  unfold plan_workflow
  rfl

theorem plan_workflow_cases (o : Oracle) (n : Nat) (w : Workflow) :
    (plan_workflow o n w).1 = default_plan_steps w ∨
    ∃ p : ParsedJson,
      (AgentExecutor.execute .ORCHESTRATOR
          ("Plan a workflow for this user request: " ++ w.user_request) []
          none (o n)).parsed = some p ∧
      p.isTruthy = true ∧
      (plan_workflow o n w).1 =
        (List.enumFrom 1 (p.workflow_steps.getD [])).map (fun q =>
          { step_id := q.1, agent := resolve_agent q.2.agent,
            instruction := q.2.instruction.getD "" }) := by
  unfold plan_workflow
  cases hr : (AgentExecutor.execute .ORCHESTRATOR
      ("Plan a workflow for this user request: " ++ w.user_request) []
      none (o n)).parsed with
  | none => left; simp [hr]
  | some p =>
    by_cases hs : (AgentExecutor.execute .ORCHESTRATOR
        ("Plan a workflow for this user request: " ++ w.user_request) []
        none (o n)).success && p.isTruthy
    · right
      exact ⟨p, rfl, by simpa using (Bool.and_eq_true _ _ |>.mp hs).2,
        by simp [hr, hs]⟩
    · left
      simp [hr, hs]

theorem plan_workflow_ids (o : Oracle) (n : Nat) (w : Workflow) :
    (plan_workflow o n w).1.map (fun s => s.step_id) =
      List.range' 1 (plan_workflow o n w).1.length := by
  rcases plan_workflow_cases o n w with h | ⟨p, _, _, h⟩
  · rw [h]; exact default_plan_steps_ids w
  · rw [h, List.map_map, List.length_map, List.enumFrom_length]
    rw [show ((fun s => s.step_id) ∘ (fun q : Nat × StepInfo =>
        ({ step_id := q.1, agent := resolve_agent q.2.agent,
           instruction := q.2.instruction.getD "" } : WorkflowStep))) = Prod.fst
      from rfl]
    exact List.enumFrom_map_fst 1 _

theorem plan_workflow_status (o : Oracle) (n : Nat) (w : Workflow) :
    ∀ s ∈ (plan_workflow o n w).1, s.status = "pending" := by
  rcases plan_workflow_cases o n w with h | ⟨p, _, _, h⟩
  · rw [h]; exact default_plan_steps_status w
  · rw [h]
    intro s hs
    rw [List.mem_map] at hs
    obtain ⟨q, _, rfl⟩ := hs
    rfl

theorem revision_work_steps_ids :
    ∀ (l : List WorkflowStep) (nid : Nat),
      (revision_work_steps l nid).map (fun s => s.step_id) =
        List.range' nid (revision_work_steps l nid).length
  | [], _ => rfl
  | s :: rest, nid => by
      unfold revision_work_steps
      split
      case h_1 p hp =>
        simp only [List.map_append, List.map_map, List.length_append,
          List.length_map, List.enumFrom_length]
        rw [show ((fun s => s.step_id) ∘ (fun q : Nat × WorkItem =>
            ({ step_id := q.1, agent := resolve_agent q.2.agent,
               instruction := q.2.task.getD "" } : WorkflowStep))) = Prod.fst
          from rfl]
        rw [List.enumFrom_map_fst nid,
          revision_work_steps_ids rest (nid + (p.additional_work_needed.getD []).length),
          List.range'_append_1]
        rw [Nat.add_comm]
      case h_2 => exact revision_work_steps_ids rest nid

theorem revision_work_steps_status :
    ∀ (l : List WorkflowStep) (nid : Nat),
      ∀ s ∈ revision_work_steps l nid, s.status = "pending"
  | [], _ => by intro s hs; simp [revision_work_steps] at hs
  | s :: rest, nid => by
      unfold revision_work_steps
      split
      case h_1 p hp =>
        intro s2 hs2
        rw [List.mem_append] at hs2
        rcases hs2 with h | h
        · rw [List.mem_map] at h
          obtain ⟨q, _, rfl⟩ := h
          rfl
        · exact revision_work_steps_status rest _ s2 h
      case h_2 => exact revision_work_steps_status rest nid

theorem add_revision_steps_ids (w : Workflow) :
    (add_revision_steps w).map (fun s => s.step_id) =
      List.range' (w.steps.length + 1) (add_revision_steps w).length := by
  simp only [add_revision_steps]
  split
  · rfl
  · simp only [List.map_append, List.map_cons, List.map_nil,
      List.length_append, List.length_cons, List.length_nil]
    rw [revision_work_steps_ids w.steps (w.steps.length + 1)]
    rw [show ([w.steps.length + 1 +
        (revision_work_steps w.steps (w.steps.length + 1)).length] : List Nat) =
      List.range' (w.steps.length + 1 +
        (revision_work_steps w.steps (w.steps.length + 1)).length) 1 from rfl]
    rw [List.range'_append_1]
    congr 1
    omega

theorem add_revision_steps_status (w : Workflow) :
    ∀ s ∈ add_revision_steps w, s.status = "pending" := by
  simp only [add_revision_steps]
  split
  · intro s hs; simp at hs
  · intro s hs
    rw [List.mem_append] at hs
    rcases hs with h | h
    · exact revision_work_steps_status w.steps _ s h
    · rw [List.mem_singleton] at h
      subst h
      rfl

/-! ### Projections of wf_carried -/

theorem wf_carried_iteration {a b : Workflow} (h : wf_carried a b) :
    b.iteration_count = a.iteration_count := h.1

theorem wf_carried_max {a b : Workflow} (h : wf_carried a b) :
    b.max_iterations = a.max_iterations := h.2.1

theorem wf_carried_state {a b : Workflow} (h : wf_carried a b) :
    b.state = a.state := h.2.2.1

theorem wf_carried_user {a b : Workflow} (h : wf_carried a b) :
    b.user_request = a.user_request := h.2.2.2.1

theorem wf_carried_final {a b : Workflow} (h : wf_carried a b) :
    b.final_output = a.final_output := h.2.2.2.2.1

theorem wf_carried_wid {a b : Workflow} (h : wf_carried a b) :
    b.workflow_id = a.workflow_id := h.2.2.2.2.2.1

theorem wf_carried_map {a b : Workflow} (h : wf_carried a b) :
    b.steps.map step_key = a.steps.map step_key := h.2.2.2.2.2.2.1

theorem wf_carried_hist {a b : Workflow} (h : wf_carried a b) :
    ∃ t, b.conversation_history = a.conversation_history ++ t := h.2.2.2.2.2.2.2

/-! ### The step-id invariant -/

theorem map_step_id_eq_of_map_step_key {a b : Workflow}
    (h : b.steps.map step_key = a.steps.map step_key) :
    b.steps.map (fun s => s.step_id) = a.steps.map (fun s => s.step_id) := by
  have := congrArg (List.map Prod.fst) h
  simpa [List.map_map] using this

theorem ids_ok_of_carried {a b : Workflow} (h : wf_carried a b)
    (ha : ids_ok a) : ids_ok b := by
  unfold ids_ok
  rw [map_step_id_eq_of_map_step_key (wf_carried_map h), wf_carried_length h]
  exact ha

theorem range'_one_append (L K : Nat) :
    List.range' 1 L ++ List.range' (L + 1) K = List.range' 1 (L + K) := by
  rw [Nat.add_comm L 1, Nat.add_comm L K]
  exact List.range'_append_1 1 L K

/-! ### Facts about loop_body -/

theorem loop_body_carried_shape (o : Oracle) (w : Workflow) (n : Nat) :
    (loop_body o w n).1.iteration_count = w.iteration_count + 1 ∧
    (loop_body o w n).1.max_iterations = w.max_iterations ∧
    (loop_body o w n).1.user_request = w.user_request ∧
    (loop_body o w n).1.final_output = w.final_output ∧
    (loop_body o w n).1.workflow_id = w.workflow_id ∧
    ((loop_body o w n).1.state = w.state ∨
      (loop_body o w n).1.state = WorkflowState.NEEDS_REVISION) ∧
    (∃ t, (loop_body o w n).1.steps.map step_key = w.steps.map step_key ++ t) ∧
    (∃ t, (loop_body o w n).1.conversation_history =
      w.conversation_history ++ t) := by
  have hc := exec_steps_carried o (List.range w.steps.length)
    ({ w with iteration_count := w.iteration_count + 1 }, n)
  obtain ⟨hit, hmax, hstate, huser, hfin, hwid, hmap, t0, ht0⟩ := hc
  simp only [loop_body]
  split
  · refine ⟨by simpa using hit, by simpa using hmax, by simpa using huser,
      by simpa using hfin, by simpa using hwid, Or.inr rfl,
      ⟨_, by rw [List.map_append]; rw [show ((exec_steps o
        (List.range w.steps.length)
        ({ w with iteration_count := w.iteration_count + 1 }, n)).1.steps.map
          step_key) = w.steps.map step_key by simpa using hmap]⟩,
      ⟨t0, by simpa using ht0⟩⟩
  · exact ⟨by simpa using hit, by simpa using hmax, by simpa using huser,
      by simpa using hfin, by simpa using hwid,
      Or.inl (by simpa using hstate),
      ⟨[], by rw [List.append_nil]; simpa using hmap⟩,
      ⟨t0, by simpa using ht0⟩⟩

theorem loop_body_ids_ok (o : Oracle) (w : Workflow) (n : Nat)
    (h : ids_ok w) : ids_ok (loop_body o w n).1 := by
  have hc := exec_steps_carried o (List.range w.steps.length)
    ({ w with iteration_count := w.iteration_count + 1 }, n)
  have h1 : ids_ok (exec_steps o (List.range w.steps.length)
      ({ w with iteration_count := w.iteration_count + 1 }, n)).1 := by
    refine ids_ok_of_carried hc ?_
    unfold ids_ok
    simpa using h
  simp only [loop_body]
  split
  · unfold ids_ok at h1 ⊢
    simp only [List.map_append, List.length_append]
    rw [h1, add_revision_steps_ids, range'_one_append]
  · exact h1

theorem loop_body_nonpending (o : Oracle) (w : Workflow) (n : Nat)
    (j : Nat) (s : WorkflowStep) (h : w.steps.get? j = some s)
    (hs : s.status ≠ "pending") :
    (loop_body o w n).1.steps.get? j = some s := by
  have h2 := exec_steps_nonpending o (List.range w.steps.length)
    ({ w with iteration_count := w.iteration_count + 1 }, n) j s h hs
  simp only [loop_body]
  split
  · rcases List.get?_eq_some.mp h2 with ⟨hlt, _⟩
    rw [List.get?_eq_getElem?, List.getElem?_append_left hlt,
      ← List.get?_eq_getElem?]
    exact h2
  · exact h2

theorem loop_body_cc_hist (o : Oracle) (w : Workflow) (n : Nat) :
    completed_count (loop_body o w n).1 + w.conversation_history.length ≤
      completed_count w + (loop_body o w n).1.conversation_history.length := by
  have h2 := exec_steps_cc_hist o (List.range w.steps.length)
    ({ w with iteration_count := w.iteration_count + 1 }, n)
  simp only [loop_body]
  split
  case isTrue hrev =>
    have hpend := add_revision_steps_status (exec_steps o
      (List.range w.steps.length)
      ({ w with iteration_count := w.iteration_count + 1 }, n)).1
    have hnil : ((add_revision_steps (exec_steps o
        (List.range w.steps.length)
        ({ w with iteration_count := w.iteration_count + 1 }, n)).1).filter
          (fun s => s.status == "completed")) = [] := by
      rw [List.filter_eq_nil_iff]
      intro a ha
      simp [hpend a ha]
    simp only [completed_count, List.filter_append, List.length_append,
      hnil, List.length_nil] at h2 ⊢
    omega
  case isFalse => exact h2

/-! ### Facts about the run loop -/

theorem run_loop_aux_carried_loose (o : Oracle) :
    ∀ (fuel : Nat) (p : Workflow × Nat),
      (run_loop_aux o fuel p).1.max_iterations = p.1.max_iterations ∧
      (run_loop_aux o fuel p).1.user_request = p.1.user_request ∧
      (run_loop_aux o fuel p).1.workflow_id = p.1.workflow_id ∧
      (run_loop_aux o fuel p).1.final_output = p.1.final_output ∧
      ((run_loop_aux o fuel p).1.state = p.1.state ∨
        (run_loop_aux o fuel p).1.state = WorkflowState.NEEDS_REVISION) ∧
      (∃ t, (run_loop_aux o fuel p).1.steps.map step_key =
        p.1.steps.map step_key ++ t) ∧
      (∃ t, (run_loop_aux o fuel p).1.conversation_history =
        p.1.conversation_history ++ t)
  | 0, p =>
      ⟨rfl, rfl, rfl, rfl, Or.inl rfl, ⟨[], by simp [run_loop_aux]⟩,
        ⟨[], by simp [run_loop_aux]⟩⟩
  | fuel + 1, p => by
      simp only [run_loop_aux]
      split
      case isTrue hg =>
        have hb := loop_body_carried_shape o p.1 p.2
        obtain ⟨b1, b2, b3, b4, b5, b6, ⟨tb, htb⟩, ⟨cb, hcb⟩⟩ := hb
        split
        case isTrue hflag =>
          have ih := run_loop_aux_carried_loose o fuel
            ((loop_body o p.1 p.2).1, (loop_body o p.1 p.2).2.1)
          obtain ⟨i1, i2, i3, i4, i5, ⟨ti, hti⟩, ⟨ci, hci⟩⟩ := ih
          refine ⟨i1.trans b2, i2.trans b3, i3.trans b5, i4.trans b4, ?_,
            ⟨tb ++ ti, ?_⟩, ⟨cb ++ ci, ?_⟩⟩
          · rcases i5 with h5 | h5
            · rw [h5]; exact b6
            · exact Or.inr h5
          · rw [hti, htb, List.append_assoc]
          · rw [hci, hcb, List.append_assoc]
        case isFalse =>
          exact ⟨b2, b3, b5, b4, b6, ⟨tb, htb⟩, ⟨cb, hcb⟩⟩
      case isFalse =>
        exact ⟨rfl, rfl, rfl, rfl, Or.inl rfl, ⟨[], by simp⟩, ⟨[], by simp⟩⟩

theorem run_loop_aux_count_le (o : Oracle) :
    ∀ (fuel : Nat) (p : Workflow × Nat),
      p.1.iteration_count ≤ p.1.max_iterations →
      (run_loop_aux o fuel p).1.iteration_count ≤ p.1.max_iterations
  | 0, _, h => h
  | fuel + 1, p, h => by
      simp only [run_loop_aux]
      split
      case isTrue hg =>
        have hb := loop_body_carried_shape o p.1 p.2
        split
        case isTrue hflag =>
          have ih := run_loop_aux_count_le o fuel
            ((loop_body o p.1 p.2).1, (loop_body o p.1 p.2).2.1)
            (by simp only []; omega)
          simp only [] at ih
          omega
        case isFalse =>
          simp only []
          omega
      case isFalse => exact h

theorem run_loop_aux_ids_ok (o : Oracle) :
    ∀ (fuel : Nat) (p : Workflow × Nat),
      ids_ok p.1 → ids_ok (run_loop_aux o fuel p).1
  | 0, _, h => h
  | fuel + 1, p, h => by
      simp only [run_loop_aux]
      split
      case isTrue hg =>
        split
        case isTrue hflag =>
          exact run_loop_aux_ids_ok o fuel
            ((loop_body o p.1 p.2).1, (loop_body o p.1 p.2).2.1)
            (loop_body_ids_ok o p.1 p.2 h)
        case isFalse => exact loop_body_ids_ok o p.1 p.2 h
      case isFalse => exact h

theorem run_loop_aux_nonpending (o : Oracle) :
    ∀ (fuel : Nat) (p : Workflow × Nat) (j : Nat) (s : WorkflowStep),
      p.1.steps.get? j = some s → s.status ≠ "pending" →
      (run_loop_aux o fuel p).1.steps.get? j = some s
  | 0, _, _, _, h, _ => h
  | fuel + 1, p, j, s, h, hs => by
      simp only [run_loop_aux]
      split
      case isTrue hg =>
        split
        case isTrue hflag =>
          exact run_loop_aux_nonpending o fuel
            ((loop_body o p.1 p.2).1, (loop_body o p.1 p.2).2.1) j s
            (loop_body_nonpending o p.1 p.2 j s h hs) hs
        case isFalse => exact loop_body_nonpending o p.1 p.2 j s h hs
      case isFalse => exact h

theorem run_loop_aux_cc_hist (o : Oracle) :
    ∀ (fuel : Nat) (p : Workflow × Nat),
      completed_count (run_loop_aux o fuel p).1 +
          p.1.conversation_history.length ≤
        completed_count p.1 +
          (run_loop_aux o fuel p).1.conversation_history.length
  | 0, _ => le_refl _
  | fuel + 1, p => by
      simp only [run_loop_aux]
      split
      case isTrue hg =>
        have hb := loop_body_cc_hist o p.1 p.2
        split
        case isTrue hflag =>
          have ih := run_loop_aux_cc_hist o fuel
            ((loop_body o p.1 p.2).1, (loop_body o p.1 p.2).2.1)
          simp only [] at ih
          omega
        case isFalse =>
          simp only []
          omega
      case isFalse => exact le_refl _

/-- The fuel `max_iterations - iteration_count` is exact: any fuel at least
that large gives the same result, so run_loop is the Python while loop. -/
theorem run_loop_aux_fuel_irrelevant (o : Oracle) :
    ∀ (f1 f2 : Nat) (p : Workflow × Nat),
      p.1.max_iterations - p.1.iteration_count ≤ f1 →
      p.1.max_iterations - p.1.iteration_count ≤ f2 →
      run_loop_aux o f1 p = run_loop_aux o f2 p
  | 0, 0, _, _, _ => rfl
  | 0, f2 + 1, p, h1, _ => by
      simp only [run_loop_aux]
      rw [if_neg (by omega)]
  | f1 + 1, 0, p, _, h2 => by
      simp only [run_loop_aux]
      rw [if_neg (by omega)]
  | f1 + 1, f2 + 1, p, h1, h2 => by
      simp only [run_loop_aux]
      by_cases hg : p.1.iteration_count < p.1.max_iterations
      · rw [if_pos hg, if_pos hg]
        have hb := loop_body_carried_shape o p.1 p.2
        split
        · exact run_loop_aux_fuel_irrelevant o f1 f2
            ((loop_body o p.1 p.2).1, (loop_body o p.1 p.2).2.1)
            (by simp only []; omega) (by simp only []; omega)
        · rfl
      · rw [if_neg hg, if_neg hg]

/-! ### States visited by the loop -/

theorem run_loop_trace_aux_nil (o : Oracle) (fuel : Nat) (p : Workflow × Nat)
    (h : ¬ p.1.iteration_count < p.1.max_iterations) :
    run_loop_trace_aux o fuel p = [] := by
  cases fuel <;> simp [run_loop_trace_aux, h]

theorem run_loop_trace_aux_mem (o : Oracle) :
    ∀ (fuel : Nat) (p : Workflow × Nat) (τ : Workflow),
      τ ∈ run_loop_trace_aux o fuel p →
      ((τ.state = p.1.state ∨ τ.state = WorkflowState.NEEDS_REVISION) ∧
        τ.max_iterations = p.1.max_iterations ∧
        (p.1.iteration_count < p.1.max_iterations →
          τ.iteration_count ≤ p.1.max_iterations))
  | 0, p, τ, h => by simp [run_loop_trace_aux] at h
  | fuel + 1, p, τ, h => by
      simp only [run_loop_trace_aux] at h
      have hb := loop_body_carried_shape o p.1 p.2
      obtain ⟨b1, b2, b3, b4, b5, b6, _, _⟩ := hb
      split at h
      case isTrue hg =>
        split at h
        case isTrue hflag =>
          rw [List.mem_cons] at h
          rcases h with rfl | h
          · exact ⟨b6, b2, fun _ => by omega⟩
          · have ih := run_loop_trace_aux_mem o fuel
              ((loop_body o p.1 p.2).1, (loop_body o p.1 p.2).2.1) τ h
            obtain ⟨is, im, ic⟩ := ih
            simp only [] at is im ic
            refine ⟨?_, by rw [im]; exact b2, fun _ => ?_⟩
            · rcases is with h5 | h5
              · rw [h5]; exact b6
              · exact Or.inr h5
            · by_cases hlt : (loop_body o p.1 p.2).1.iteration_count <
                  (loop_body o p.1 p.2).1.max_iterations
              · have := ic hlt
                omega
              · rw [run_loop_trace_aux_nil o fuel _ hlt] at h
                simp at h
        case isFalse =>
          rw [List.mem_singleton] at h
          subst h
          exact ⟨b6, b2, fun _ => by omega⟩
      case isFalse => simp at h

/-! ### Behavior when the generation backend raises -/

theorem step_exec_result_raises {o : Oracle} {n : Nat} {w : Workflow}
    {step : WorkflowStep} {e : String} (h : o n = BackendReply.raises e) :
    step_exec_result o n w step =
      { agent := step.agent.value, success := false, error := some e } := by
  unfold step_exec_result AgentExecutor.execute
  rw [h]

theorem step_exec_result_replies {o : Oracle} {n : Nat} {w : Workflow}
    {step : WorkflowStep} {c : String} {pj : Option ParsedJson}
    (h : o n = BackendReply.replies c pj) :
    step_exec_result o n w step =
      { agent := step.agent.value, raw_response := some c, parsed := pj,
        success := true } := by
  unfold step_exec_result AgentExecutor.execute
  rw [h]

theorem step_after_failed_status {r : ExecResult} {s : WorkflowStep}
    (hr : r.success = false) : (step_after r s).status = "failed" := by
  simp [step_after, hr]

theorem step_after_failed_error {r : ExecResult} {s : WorkflowStep}
    (hr : r.success = false) :
    (step_after r s).error = some (r.error.getD "Unknown error") := by
  simp [step_after, hr]

theorem step_after_failed_output {r : ExecResult} {s : WorkflowStep}
    (hr : r.success = false) : (step_after r s).output_data = s.output_data := by
  simp [step_after, hr]

theorem execute_step_not_completed {o : Oracle} (ho : raising o) (n : Nat)
    (w : Workflow) (i : Nat)
    (h : ∀ j s, w.steps.get? j = some s → s.status ≠ "completed") :
    ∀ j s, (execute_step o n w i).1.steps.get? j = some s →
      s.status ≠ "completed" := by
  intro j s hj
  cases hgi : w.steps.get? i with
  | none =>
    rw [execute_step_none hgi] at hj
    exact h j s hj
  | some step =>
    rw [execute_step_some hgi] at hj
    by_cases hji : j = i
    · subst hji
      rcases List.get?_eq_some.mp hgi with ⟨hlt, _⟩
      rw [List.get?_eq_getElem?, List.getElem?_set_self hlt] at hj
      cases hj
      obtain ⟨e, he⟩ := ho n
      rw [step_after_failed_status (by rw [step_exec_result_raises he])]
      simp
    · rw [List.get?_eq_getElem?,
        List.getElem?_set_ne (fun hh => hji hh.symm),
        ← List.get?_eq_getElem?] at hj
      exact h j s hj

theorem exec_steps_not_completed {o : Oracle} (ho : raising o) :
    ∀ (l : List Nat) (p : Workflow × Nat),
      (∀ j s, p.1.steps.get? j = some s → s.status ≠ "completed") →
      ∀ j s, (exec_steps o l p).1.steps.get? j = some s →
        s.status ≠ "completed"
  | [], _, h => h
  | i :: l, p, h => by
      unfold exec_steps
      split
      · split
        · exact exec_steps_not_completed ho l _
            (execute_step_not_completed ho p.2 p.1 i h)
        · exact exec_steps_not_completed ho l p h
      · exact exec_steps_not_completed ho l p h

theorem loop_body_not_completed {o : Oracle} (ho : raising o)
    (w : Workflow) (n : Nat)
    (h : ∀ j s, w.steps.get? j = some s → s.status ≠ "completed") :
    ∀ j s, (loop_body o w n).1.steps.get? j = some s →
      s.status ≠ "completed" := by
  have h2 := exec_steps_not_completed ho (List.range w.steps.length)
    ({ w with iteration_count := w.iteration_count + 1 }, n) h
  simp only [loop_body]
  split
  · intro j s hj
    have hm := List.get?_mem hj
    rw [List.mem_append] at hm
    rcases hm with hm | hm
    · rcases List.mem_iff_get?.mp hm with ⟨j2, hj2⟩
      exact h2 j2 s hj2
    · have hp := add_revision_steps_status _ s hm
      simp [hp]
  · exact h2

theorem run_loop_aux_not_completed {o : Oracle} (ho : raising o) :
    ∀ (fuel : Nat) (p : Workflow × Nat),
      (∀ j s, p.1.steps.get? j = some s → s.status ≠ "completed") →
      ∀ j s, (run_loop_aux o fuel p).1.steps.get? j = some s →
        s.status ≠ "completed"
  | 0, _, h => h
  | fuel + 1, p, h => by
      simp only [run_loop_aux]
      split
      case isTrue hg =>
        split
        case isTrue hflag =>
          exact run_loop_aux_not_completed ho fuel
            ((loop_body o p.1 p.2).1, (loop_body o p.1 p.2).2.1)
            (loop_body_not_completed ho p.1 p.2 h)
        case isFalse => exact loop_body_not_completed ho p.1 p.2 h
      case isFalse => exact h

/-! ### Facts about finalize_output -/

theorem finalize_output_facts (o : Oracle) (w : Workflow) (n : Nat) :
    (finalize_output o w n).1.state = w.state ∧
    (finalize_output o w n).1.max_iterations = w.max_iterations ∧
    (finalize_output o w n).1.iteration_count = w.iteration_count ∧
    (finalize_output o w n).1.workflow_id = w.workflow_id ∧
    (finalize_output o w n).1.user_request = w.user_request ∧
    (∃ s, (finalize_output o w n).1.final_output = some s) ∧
    (∃ t, (finalize_output o w n).1.conversation_history =
      w.conversation_history ++ t) := by
  simp only [finalize_output]
  split
  · exact ⟨rfl, rfl, rfl, rfl, rfl, ⟨_, rfl⟩, ⟨[], by simp⟩⟩
  · have hc := execute_step_carried o n
      ({ w with steps := w.steps ++ [forced_output_step w] } : Workflow)
      w.steps.length
    obtain ⟨h1, h2, h3, h4, h5, h6, h7, t, ht⟩ := hc
    exact ⟨h3, h2, h1, h6, h4, ⟨_, rfl⟩, ⟨t, ht⟩⟩

theorem ids_ok_steps_congr {a b : Workflow} (h : b.steps = a.steps)
    (ha : ids_ok a) : ids_ok b := by
  unfold ids_ok
  rw [h]
  exact ha

theorem finalize_output_ids_ok (o : Oracle) (w : Workflow) (n : Nat)
    (h : ids_ok w) : ids_ok (finalize_output o w n).1 := by
  simp only [finalize_output]
  split
  · exact h
  · have happ : ids_ok ({ w with
        steps := w.steps ++ [forced_output_step w] } : Workflow) := by
      unfold ids_ok at h ⊢
      simp only [forced_output_step, List.map_append, List.length_append,
        List.map_cons, List.map_nil, List.length_cons, List.length_nil]
      rw [h]
      rw [show ([w.steps.length + 1] : List Nat) =
        List.range' (w.steps.length + 1) 1 from rfl]
      rw [range'_one_append]
    have hc := execute_step_carried o n
      ({ w with steps := w.steps ++ [forced_output_step w] } : Workflow)
      w.steps.length
    have hfin := ids_ok_of_carried hc happ
    exact ids_ok_steps_congr rfl hfin

theorem finalize_output_hist (o : Oracle) (w : Workflow) (n : Nat) :
    w.conversation_history.length <
      (finalize_output o w n).1.conversation_history.length ∨
    ((finalize_output o w n).1.conversation_history = w.conversation_history ∧
      1 ≤ completed_count w) := by
  simp only [finalize_output]
  split
  case h_1 st heq =>
    right
    refine ⟨rfl, ?_⟩
    have hmem := List.mem_of_getLast?_eq_some heq
    rw [List.mem_filter] at hmem
    have : st ∈ w.steps.filter (fun s => s.status == "completed") := by
      rw [List.mem_filter]
      refine ⟨hmem.1, ?_⟩
      have := hmem.2
      simp only [Bool.and_eq_true] at this
      exact this.2
    exact List.length_pos_of_mem this
  case h_2 heq =>
    left
    have hget : (({ w with
        steps := w.steps ++ [forced_output_step w] } :
        Workflow)).steps.get? w.steps.length = some (forced_output_step w) := by
      rw [List.get?_eq_getElem?]
      exact List.getElem?_concat_length _ _
    rw [execute_step_some hget]
    simp

/-! ### Facts about run_workflow -/

theorem filter_completed_nil_of_pending {l : List WorkflowStep}
    (h : ∀ s ∈ l, s.status = "pending") :
    l.filter (fun s => s.status == "completed") = [] := by
  rw [List.filter_eq_nil_iff]
  intro a ha
  simp [h a ha]

theorem completed_count_zero_of_pending (w1 : Workflow)
    (h : ∀ s ∈ w1.steps, s.status = "pending") : completed_count w1 = 0 := by
  unfold completed_count
  rw [filter_completed_nil_of_pending h]
  rfl

theorem run_workflow_final_state (o : Oracle) (w : Workflow) (n : Nat) :
    (run_workflow o w n).1.state = WorkflowState.COMPLETED := rfl

theorem run_workflow_final_output_isSome (o : Oracle) (w : Workflow) (n : Nat) :
    ∃ s, (run_workflow o w n).1.final_output = some s := by
  simp only [run_workflow]
  exact (finalize_output_facts o _ _).2.2.2.2.2.1

theorem run_workflow_iteration_bound (o : Oracle) (w : Workflow) (n : Nat)
    (h : w.iteration_count ≤ w.max_iterations) :
    (run_workflow o w n).1.iteration_count ≤ w.max_iterations := by
  simp only [run_workflow, run_loop]
  rw [(finalize_output_facts o _ _).2.2.1]
  exact run_loop_aux_count_le o _ _ h

theorem run_workflow_ids_ok (o : Oracle) (w : Workflow) (n : Nat) :
    ids_ok (run_workflow o w n).1 := by
  simp only [run_workflow, run_loop]
  apply finalize_output_ids_ok
  apply run_loop_aux_ids_ok
  unfold ids_ok
  rw [plan_workflow_ids]

/-- The history strictly grows across one pipeline tail (loop then finalize)
started from a workflow with no completed step (e.g. freshly planned). -/
theorem tail_hist_grows (o : Oracle) (w1 : Workflow) (n1 fuel h0 : Nat)
    (hh : w1.conversation_history.length = h0)
    (hcc : completed_count w1 = 0) :
    h0 <
      (finalize_output o (run_loop_aux o fuel (w1, n1)).1
        (run_loop_aux o fuel (w1, n1)).2).1.conversation_history.length := by
  have hmono := run_loop_aux_carried_loose o fuel (w1, n1)
  obtain ⟨_, _, _, _, _, _, tA, htA⟩ := hmono
  have hlenA : (run_loop_aux o fuel
      (w1, n1)).1.conversation_history.length =
      w1.conversation_history.length + tA.length := by
    rw [htA]
    simp
  have hcch := run_loop_aux_cc_hist o fuel (w1, n1)
  rcases finalize_output_hist o
      (run_loop_aux o fuel (w1, n1)).1
      (run_loop_aux o fuel (w1, n1)).2
    with hlt | ⟨heq, hge⟩
  · omega
  · have hlen : (finalize_output o
        (run_loop_aux o fuel (w1, n1)).1
        (run_loop_aux o fuel
          (w1, n1)).2).1.conversation_history.length =
        (run_loop_aux o fuel
          (w1, n1)).1.conversation_history.length := by
      rw [heq]
    simp only [] at hcch
    omega

theorem run_workflow_hist_grows (o : Oracle) (w : Workflow) (n : Nat) :
    w.conversation_history.length <
      (run_workflow o w n).1.conversation_history.length := by
  simp only [run_workflow, run_loop]
  apply tail_hist_grows
  · rfl
  · apply completed_count_zero_of_pending
    intro s hs
    exact plan_workflow_status o n _ s hs

/-! ### Failure handling of a single step, and the all-failing run -/

theorem execute_step_raises_spec (o : Oracle) (n : Nat) (w : Workflow)
    (i : Nat) (step : WorkflowStep) (e : String)
    (hstep : w.steps.get? i = some step)
    (he : o n = BackendReply.raises e) :
    (execute_step o n w i).1.steps.get? i =
      some { step with status := "failed", error := some e } ∧
    (execute_step o n w i).1.conversation_history =
      w.conversation_history ++
        [{ step_id := step.step_id, agent := step.agent.value,
           instruction := step.instruction,
           result := { agent := step.agent.value, success := false,
                       error := some e } }] ∧
    (execute_step o n w i).2 = n + 1 := by
  rcases List.get?_eq_some.mp hstep with ⟨hlt, _⟩
  rw [execute_step_some hstep, step_exec_result_raises he]
  refine ⟨?_, ?_, rfl⟩
  · rw [List.get?_eq_getElem?, List.getElem?_set_self hlt]
    simp [step_after]
  · simp [step_entry]

theorem filter_length_pos_of_get? {α : Type} (p : α → Bool) (l : List α)
    (i : Nat) (a : α) (h : l.get? i = some a) (hp : p a = true) :
    1 ≤ (l.filter p).length := by
  exact List.length_pos_of_mem (List.mem_filter.mpr ⟨List.get?_mem h, hp⟩)

theorem finalize_output_failed_step (o : Oracle) (w2 : Workflow) (n2 : Nat)
    (ho : raising o)
    (hnc : ∀ j s, w2.steps.get? j = some s → s.status ≠ "completed") :
    1 ≤ ((finalize_output o w2 n2).1.steps.filter
      (fun s => s.status == "failed")).length := by
  simp only [finalize_output]
  split
  case h_1 st heq =>
    exfalso
    have hmem := List.mem_of_getLast?_eq_some heq
    rw [List.mem_filter] at hmem
    obtain ⟨hmem1, hpred⟩ := hmem
    simp only [Bool.and_eq_true] at hpred
    rcases List.mem_iff_get?.mp hmem1 with ⟨j, hj⟩
    exact hnc j st hj (by simpa using hpred.2)
  case h_2 heq =>
    have hget : (({ w2 with
        steps := w2.steps ++ [forced_output_step w2] } :
        Workflow)).steps.get? w2.steps.length =
        some (forced_output_step w2) := by
      rw [List.get?_eq_getElem?]
      exact List.getElem?_concat_length _ _
    obtain ⟨e, he⟩ := ho n2
    have hspec := execute_step_raises_spec o n2
      ({ w2 with steps := w2.steps ++ [forced_output_step w2] } : Workflow)
      w2.steps.length _ e hget he
    exact filter_length_pos_of_get? (fun s => s.status == "failed") _
      w2.steps.length _ hspec.1 (by simp)

theorem raising_run_steps_failed (o : Oracle) (ho : raising o)
    (w : Workflow) (n : Nat) :
    1 ≤ (get_workflow_summary (run_workflow o w n).1).steps_failed := by
  simp only [run_workflow, run_loop, get_workflow_summary]
  apply finalize_output_failed_step o _ _ ho
  apply run_loop_aux_not_completed ho
  intro j s hj
  have hm := List.get?_mem hj
  have hp := plan_workflow_status o n _ s hm
  simp [hp]

/-! ### States traversed by run_workflow -/

theorem run_tail_trace_facts (o : Oracle) (w1 : Workflow) (n1 fuel : Nat)
    (τ : Workflow)
    (hτ : τ ∈ run_loop_trace_aux o fuel (w1, n1) ++
      [(run_loop_aux o fuel (w1, n1)).1,
       (finalize_output o (run_loop_aux o fuel (w1, n1)).1
          (run_loop_aux o fuel (w1, n1)).2).1,
       { (finalize_output o (run_loop_aux o fuel (w1, n1)).1
            (run_loop_aux o fuel (w1, n1)).2).1
         with state := WorkflowState.COMPLETED }]) :
    (τ.state = w1.state ∨ τ.state = WorkflowState.NEEDS_REVISION ∨
      τ.state = WorkflowState.COMPLETED) ∧
    (w1.iteration_count ≤ w1.max_iterations →
      τ.iteration_count ≤ w1.max_iterations) := by
  rw [List.mem_append] at hτ
  rcases hτ with hτ | hτ
  · have h2 := run_loop_trace_aux_mem o fuel (w1, n1) τ hτ
    obtain ⟨hs, hm, hc⟩ := h2
    refine ⟨?_, fun hle => ?_⟩
    · rcases hs with h | h
      · exact Or.inl h
      · exact Or.inr (Or.inl h)
    · by_cases hlt : w1.iteration_count < w1.max_iterations
      · exact hc hlt
      · rw [run_loop_trace_aux_nil o fuel (w1, n1) hlt] at hτ
        simp at hτ
  · have hloose := run_loop_aux_carried_loose o fuel (w1, n1)
    obtain ⟨l1, _, _, _, l5, _, _⟩ := hloose
    have hcount := run_loop_aux_count_le o fuel (w1, n1)
    have hfin := finalize_output_facts o (run_loop_aux o fuel (w1, n1)).1
      (run_loop_aux o fuel (w1, n1)).2
    obtain ⟨f1, _, f3, _, _, _, _⟩ := hfin
    simp only [List.mem_cons, List.not_mem_nil, or_false] at hτ
    rcases hτ with rfl | rfl | rfl
    · refine ⟨?_, fun hle => hcount hle⟩
      rcases l5 with h | h
      · exact Or.inl h
      · exact Or.inr (Or.inl h)
    · refine ⟨?_, fun hle => ?_⟩
      · rw [f1]
        rcases l5 with h | h
        · exact Or.inl h
        · exact Or.inr (Or.inl h)
      · rw [f3]
        exact hcount hle
    · refine ⟨Or.inr (Or.inr rfl), fun hle => ?_⟩
      rw [show ({ (finalize_output o (run_loop_aux o fuel (w1, n1)).1
            (run_loop_aux o fuel (w1, n1)).2).1
          with state := WorkflowState.COMPLETED } : Workflow).iteration_count =
          (finalize_output o (run_loop_aux o fuel (w1, n1)).1
            (run_loop_aux o fuel (w1, n1)).2).1.iteration_count from rfl]
      rw [f3]
      exact hcount hle

theorem run_workflow_trace_facts (o : Oracle) (w : Workflow) (n : Nat)
    (τ : Workflow) (hτ : τ ∈ run_workflow_trace o w n) :
    (τ.state = WorkflowState.IN_PROGRESS ∨
      τ.state = WorkflowState.NEEDS_REVISION ∨
      τ.state = WorkflowState.COMPLETED) ∧
    (w.iteration_count ≤ w.max_iterations →
      τ.iteration_count ≤ w.max_iterations) := by
  simp only [run_workflow_trace, run_loop] at hτ
  rw [List.mem_cons] at hτ
  rcases hτ with rfl | hτ
  · exact ⟨Or.inl rfl, fun hle => hle⟩
  rw [List.mem_cons] at hτ
  rcases hτ with rfl | hτ
  · exact ⟨Or.inl rfl, fun hle => hle⟩
  · have h2 := run_tail_trace_facts o _ _ _ τ hτ
    obtain ⟨hs, hc⟩ := h2
    refine ⟨?_, fun hle => hc hle⟩
    rcases hs with h | h
    · exact Or.inl h
    · exact Or.inr h

/-! ### Characterization of the revision check -/

theorem check_go_cons (s : WorkflowStep) (l : List WorkflowStep) :
    check_go (s :: l) =
      match review_truthy_parsed s with
      | some p => step_revision_verdict p
      | none => check_go l := rfl

theorem check_go_append_of_none (l1 l2 : List WorkflowStep)
    (h : ∀ t ∈ l1, review_truthy_parsed t = none) :
    check_go (l1 ++ l2) = check_go l2 := by
  induction l1 with
  | nil => rfl
  | cons a l ih =>
      rw [List.cons_append, check_go_cons, h a (List.mem_cons_self a l)]
      exact ih (fun t ht => h t (List.mem_cons_of_mem a ht))

theorem check_go_first (l1 : List WorkflowStep) (s : WorkflowStep)
    (l2 : List WorkflowStep) (p : ParsedJson)
    (h1 : ∀ t ∈ l1, review_truthy_parsed t = none)
    (hs : review_truthy_parsed s = some p) :
    check_go (l1 ++ s :: l2) = step_revision_verdict p := by
  rw [check_go_append_of_none l1 (s :: l2) h1, check_go_cons, hs]

theorem check_go_none (l : List WorkflowStep)
    (h : ∀ t ∈ l, review_truthy_parsed t = none) : check_go l = false := by
  have h2 := check_go_append_of_none l [] h
  simpa using h2

/-! ### Context dictionary semantics -/

theorem find?_map_replace_self (k : String) (v : CtxVal) :
    ∀ (d : Ctx), d.any (fun q => q.1 == k) = true →
      (d.map (fun q => if q.1 == k then (k, v) else q)).find?
        (fun q => q.1 == k) = some (k, v)
  | [], h => by simp at h
  | a :: d, h => by
      simp only [List.map_cons]
      by_cases ha : (a.1 == k) = true
      · rw [if_pos ha]
        simp
      · rw [if_neg ha]
        rw [List.find?_cons_of_neg _ (by simpa using ha)]
        simp only [List.any_cons, Bool.or_eq_true] at h
        rcases h with h | h
        · exact absurd h ha
        · exact find?_map_replace_self k v d h

theorem find?_map_replace_ne (k k' : String) (v : CtxVal) (hne : k' ≠ k) :
    ∀ (d : Ctx),
      (d.map (fun q => if q.1 == k then (k, v) else q)).find?
        (fun q => q.1 == k') = d.find? (fun q => q.1 == k')
  | [] => rfl
  | a :: d => by
      simp only [List.map_cons, List.find?_cons]
      by_cases ha : (a.1 == k) = true
      · rw [if_pos ha]
        have ha' : a.1 = k := by simpa using ha
        have hk1 : (k == k') = false := by
          simp only [beq_eq_false_iff_ne]
          exact Ne.symm hne
        have hk2 : (a.1 == k') = false := by
          rw [ha']
          exact hk1
        simp only [hk1, hk2]
        exact find?_map_replace_ne k k' v hne d
      · rw [if_neg ha]
        by_cases ha2 : (a.1 == k') = true
        · simp only [ha2]
        · simp only [Bool.not_eq_true] at ha2
          simp only [ha2]
          exact find?_map_replace_ne k k' v hne d

theorem ctx_get_dict_set_self (d : Ctx) (k : String) (v : CtxVal) :
    ctx_get (dict_set d k v) k = some v := by
  unfold dict_set ctx_get
  split
  case isTrue hany =>
    rw [find?_map_replace_self k v d hany]
    rfl
  case isFalse hany =>
    rw [List.find?_append]
    have hnone : d.find? (fun q => q.1 == k) = none := by
      rw [List.find?_eq_none]
      intro x hx hpx
      exact hany (List.any_eq_true.mpr ⟨x, hx, hpx⟩)
    rw [hnone]
    simp

theorem ctx_get_dict_set_ne (d : Ctx) (k k' : String) (v : CtxVal)
    (hne : k' ≠ k) : ctx_get (dict_set d k v) k' = ctx_get d k' := by
  unfold dict_set ctx_get
  split
  case isTrue hany =>
    rw [find?_map_replace_ne k k' v hne d]
  case isFalse hany =>
    rw [List.find?_append]
    cases hd : d.find? (fun q => q.1 == k') with
    | some a => rfl
    | none =>
        simp only [Option.none_or]
        rw [List.find?_cons_of_neg _ (by simp [Ne.symm hne])]
        rfl

/-! ### Characterization of gather_context -/

theorem ctx_fold_get (step : WorkflowStep) (k : String) (ctx : Ctx)
    (l : List WorkflowStep) :
    ctx_get (l.foldl
      (fun ctx prev =>
        if prev.step_id < step.step_id then
          match prev.output_data with
          | some r => dict_set ctx prev.agent.value (CtxVal.output r)
          | none => ctx
        else ctx) ctx) k =
    (match (l.filter (fun p => decide (p.step_id < step.step_id) &&
        p.output_data.isSome && (p.agent.value == k))).getLast? with
      | some p => p.output_data.map CtxVal.output
      | none => ctx_get ctx k) := by
  induction l using List.reverseRecOn with
  | nil => rfl
  | append_singleton l a ih =>
      rw [List.foldl_append, List.filter_append]
      simp only [List.foldl_cons, List.foldl_nil]
      by_cases hid : a.step_id < step.step_id
      · cases hout : a.output_data with
        | none =>
            have hfil : List.filter (fun p =>
                decide (p.step_id < step.step_id) &&
                p.output_data.isSome && (p.agent.value == k)) [a] = [] := by
              simp [hout]
            rw [if_pos hid, hfil, List.append_nil]
            simp only [hout]
            exact ih
        | some r =>
            by_cases hkey : (a.agent.value == k) = true
            · have hkeq : a.agent.value = k := by simpa using hkey
              have hfil : List.filter (fun p =>
                  decide (p.step_id < step.step_id) &&
                  p.output_data.isSome && (p.agent.value == k)) [a] = [a] := by
                simp [hout, hid, hkey]
              rw [if_pos hid, hfil, List.getLast?_concat]
              simp only [hout, hkeq, Option.map_some']
              exact ctx_get_dict_set_self _ _ _
            · have hne : k ≠ a.agent.value := by
                intro hh
                exact hkey (by simp [hh])
              have hfil : List.filter (fun p =>
                  decide (p.step_id < step.step_id) &&
                  p.output_data.isSome && (p.agent.value == k)) [a] = [] := by
                simp only [Bool.not_eq_true] at hkey
                simp [hkey]
              rw [if_pos hid, hfil, List.append_nil]
              simp only [hout]
              rw [ctx_get_dict_set_ne _ _ _ _ hne]
              exact ih
      · have hfil : List.filter (fun p =>
            decide (p.step_id < step.step_id) &&
            p.output_data.isSome && (p.agent.value == k)) [a] = [] := by
          simp [hid]
        rw [if_neg hid, hfil, List.append_nil]
        exact ih

theorem gather_context_spec (w : Workflow) (step : WorkflowStep) (k : String) :
    ctx_get (gather_context w step) "user_request" =
      some (CtxVal.text w.user_request) ∧
    (k ≠ "user_request" →
      ctx_get (gather_context w step) k =
        (last_context_source w step k).map CtxVal.output) := by
  constructor
  · unfold gather_context
    exact ctx_get_dict_set_self _ _ _
  · intro hk
    unfold gather_context
    rw [ctx_get_dict_set_ne _ _ _ _ hk]
    rw [ctx_fold_get step k [] w.steps]
    unfold last_context_source
    cases hfil : (w.steps.filter (fun p => decide (p.step_id < step.step_id) &&
        p.output_data.isSome && (p.agent.value == k))).getLast? with
    | none => simp [hfil, ctx_get]
    | some p => simp [hfil]

/-! ### Agent selection in planning and revision -/

theorem plan_workflow_agents (o : Oracle) (n : Nat) (w : Workflow)
    (c : String) (p : ParsedJson)
    (hre : o n = BackendReply.replies c (some p)) (ht : p.isTruthy = true) :
    (plan_workflow o n w).1.map (fun s => s.agent) =
      (p.workflow_steps.getD []).map (fun si => resolve_agent si.agent) := by
  unfold plan_workflow
  rw [hre]
  simp only [AgentExecutor.execute, ht, Bool.true_and, Bool.and_true, if_true]
  rw [List.map_map]
  rw [show ((fun s => s.agent) ∘ (fun q : Nat × StepInfo =>
      ({ step_id := q.1, agent := resolve_agent q.2.agent,
         instruction := q.2.instruction.getD "" } : WorkflowStep))) =
    ((fun si => resolve_agent si.agent) ∘ Prod.snd) from rfl]
  rw [← List.map_map, List.enumFrom_map_snd]

theorem plan_workflow_length (o : Oracle) (n : Nat) (w : Workflow)
    (c : String) (p : ParsedJson)
    (hre : o n = BackendReply.replies c (some p)) (ht : p.isTruthy = true) :
    (plan_workflow o n w).1.length = (p.workflow_steps.getD []).length := by
  unfold plan_workflow
  rw [hre]
  simp [AgentExecutor.execute, ht]

theorem plan_workflow_default_raises (o : Oracle) (n : Nat) (w : Workflow)
    (e : String) (he : o n = BackendReply.raises e) :
    (plan_workflow o n w).1 = default_plan_steps w := by
  unfold plan_workflow
  rw [he]
  rfl

theorem plan_workflow_default_unparsed (o : Oracle) (n : Nat) (w : Workflow)
    (c : String) (he : o n = BackendReply.replies c none) :
    (plan_workflow o n w).1 = default_plan_steps w := by
  unfold plan_workflow
  rw [he]
  rfl

theorem plan_workflow_default_falsy (o : Oracle) (n : Nat) (w : Workflow)
    (c : String) (p : ParsedJson)
    (hre : o n = BackendReply.replies c (some p)) (ht : p.isTruthy = false) :
    (plan_workflow o n w).1 = default_plan_steps w := by
  unfold plan_workflow
  rw [hre]
  simp [AgentExecutor.execute, ht]

theorem revision_work_steps_agents :
    ∀ (l : List WorkflowStep) (nid : Nat) (st : WorkflowStep),
      st ∈ revision_work_steps l nid →
      ∃ s ∈ l, ∃ p, review_truthy_parsed s = some p ∧
        ∃ wi ∈ p.additional_work_needed.getD [],
          st.agent = resolve_agent wi.agent
  | [], _, st, h => by simp [revision_work_steps] at h
  | s :: rest, nid, st, h => by
      unfold revision_work_steps at h
      split at h
      case h_1 p hp =>
        rw [List.mem_append] at h
        rcases h with h | h
        · rw [List.mem_map] at h
          obtain ⟨q, hq, rfl⟩ := h
          have hq2 : q.2 ∈ p.additional_work_needed.getD [] := by
            have hm := List.mem_map_of_mem Prod.snd hq
            rwa [List.enumFrom_map_snd] at hm
          exact ⟨s, List.mem_cons_self s rest, p, hp, q.2, hq2, rfl⟩
        · obtain ⟨s2, hs2, hrest⟩ := revision_work_steps_agents rest _ st h
          exact ⟨s2, List.mem_cons_of_mem s hs2, hrest⟩
      case h_2 =>
        obtain ⟨s2, hs2, hrest⟩ := revision_work_steps_agents rest nid st h
        exact ⟨s2, List.mem_cons_of_mem s hs2, hrest⟩

theorem add_revision_steps_agents (w : Workflow) (st : WorkflowStep)
    (h : st ∈ add_revision_steps w) :
    st.agent = AgentRole.REVIEW ∨
    ∃ s ∈ w.steps, ∃ p, review_truthy_parsed s = some p ∧
      ∃ wi ∈ p.additional_work_needed.getD [],
        st.agent = resolve_agent wi.agent := by
  simp only [add_revision_steps] at h
  split at h
  · simp at h
  · rw [List.mem_append] at h
    rcases h with h | h
    · exact Or.inr (revision_work_steps_agents w.steps _ st h)
    · rw [List.mem_singleton] at h
      subst h
      exact Or.inl rfl

theorem resolve_agent_unknown (nm : String)
    (h : lookupRole nm.toUpper = none) :
    resolve_agent (some nm) = AgentRole.RESEARCH := by
  unfold resolve_agent
  rw [show (some nm).getD "RESEARCH" = nm from rfl, h]

/-! ### The planned steps survive to the end of the run -/

theorem finalize_output_map_key (o : Oracle) (w : Workflow) (n : Nat) :
    ∃ t, (finalize_output o w n).1.steps.map step_key =
      w.steps.map step_key ++ t := by
  simp only [finalize_output]
  split
  · exact ⟨[], by simp⟩
  · have hc := execute_step_carried o n
      ({ w with steps := w.steps ++ [forced_output_step w] } : Workflow)
      w.steps.length
    obtain ⟨_, _, _, _, _, _, h7, _⟩ := hc
    refine ⟨[step_key (forced_output_step w)], ?_⟩
    have h8 : (execute_step o n
        ({ w with steps := w.steps ++ [forced_output_step w] } :
          Workflow) w.steps.length).1.steps.map step_key =
        (w.steps ++ [forced_output_step w]).map step_key := h7
    rw [List.map_append] at h8
    simpa using h8

theorem tail_keeps_steps (o : Oracle) (w1 : Workflow) (n1 fuel : Nat)
    (pl : List WorkflowStep) (hpl : w1.steps = pl) :
    ∃ t, (finalize_output o (run_loop_aux o fuel (w1, n1)).1
        (run_loop_aux o fuel (w1, n1)).2).1.steps.map step_key =
      pl.map step_key ++ t := by
  obtain ⟨_, _, _, _, _, ⟨t1, ht1⟩, _⟩ :=
    run_loop_aux_carried_loose o fuel (w1, n1)
  obtain ⟨t2, ht2⟩ := finalize_output_map_key o
    (run_loop_aux o fuel (w1, n1)).1 (run_loop_aux o fuel (w1, n1)).2
  refine ⟨t1 ++ t2, ?_⟩
  rw [ht2, ht1, ← hpl, List.append_assoc]

/-! ## Claim theorems -/

/-- C1 (amended): _plan_workflow falls back to the fixed five-step default
sequence (triage, research, compliance, review, output) exactly when the
planner call raises, or its reply carries no parsed object, or the parsed
object is falsy; a reply whose parsed object is truthy yields one step per
`workflow_steps` entry — possibly zero steps, so planning does NOT guarantee
a non-empty step list in that case. -/
theorem c1_plan_fallback (o : Oracle) (n : Nat) (w : Workflow) :
    (∀ e, o n = BackendReply.raises e →
      (plan_workflow o n w).1 = default_plan_steps w) ∧
    (∀ c, o n = BackendReply.replies c none →
      (plan_workflow o n w).1 = default_plan_steps w) ∧
    (∀ c p, o n = BackendReply.replies c (some p) → p.isTruthy = false →
      (plan_workflow o n w).1 = default_plan_steps w) ∧
    (∀ c p, o n = BackendReply.replies c (some p) → p.isTruthy = true →
      (plan_workflow o n w).1.length = (p.workflow_steps.getD []).length) ∧
    (default_plan_steps w).length = 5 :=
  ⟨fun e he => plan_workflow_default_raises o n w e he,
   fun c hc => plan_workflow_default_unparsed o n w c hc,
   fun c p hre ht => plan_workflow_default_falsy o n w c p hre ht,
   fun c p hre ht => plan_workflow_length o n w c p hre ht,
   rfl⟩

/-- C1 counterexample: a planner reply that succeeds with a truthy parsed
object lacking `workflow_steps` makes _plan_workflow return an empty step
list — planning CAN leave a workflow with zero steps, contradicting the
claim's "parsed plan yields no steps implies default fallback". -/
theorem c1_counterexample :
    plan_no_steps_oracle 0 =
      BackendReply.replies "\x7b\x22task_summary\x22: \x22x\x22\x7d"
        (some plan_no_steps) ∧
    plan_no_steps.isTruthy = true ∧
    (plan_workflow plan_no_steps_oracle 0 wf_example).1 = [] := by
  refine ⟨rfl, rfl, ?_⟩
  decide

/-- Witness for C1: a raising planner call yields the default sequence. -/
theorem c1_plan_fallback_witness :
    (plan_workflow fail_oracle 0 wf_example).1 =
      default_plan_steps wf_example :=
  (c1_plan_fallback fail_oracle 0 wf_example).1 "boom" rfl

/-- C2 (amended): the verdict of _check_if_revision_needed is determined by
the EARLIEST step in list order whose agent is REVIEW with a truthy parsed
output (the scan returns at the first hit, so a later reviewer step's output
never supersedes an earlier one's); when no step passes that guard — no
reviewer step at all, or only unparsed reviewer outputs — the verdict is
false. -/
theorem c2_first_reviewer_governs :
    (∀ (w : Workflow) (l1 : List WorkflowStep) (s : WorkflowStep)
        (l2 : List WorkflowStep) (p : ParsedJson),
      w.steps = l1 ++ s :: l2 →
      (∀ t ∈ l1, review_truthy_parsed t = none) →
      review_truthy_parsed s = some p →
      check_if_revision_needed w = step_revision_verdict p) ∧
    (∀ w : Workflow, (∀ t ∈ w.steps, review_truthy_parsed t = none) →
      check_if_revision_needed w = false) := by
  constructor
  · intro w l1 s l2 p hw h1 hs
    unfold check_if_revision_needed
    rw [hw]
    exact check_go_first l1 s l2 p h1 hs
  · intro w h
    exact check_go_none w.steps h

/-- C2 counterexample: with two completed reviewer steps — the earlier
requesting more work, the most recent declaring itself ready — the code
returns true while the spec's most-recent-reviewer semantics returns
false. -/
theorem c2_counterexample :
    check_if_revision_needed two_review_workflow = true ∧
    spec_needs_revision two_review_workflow = false := by
  decide

/-- Witness for C2: the earliest reviewer's verdict governs on the concrete
two-reviewer workflow. -/
theorem c2_first_reviewer_governs_witness :
    check_if_revision_needed two_review_workflow =
      step_revision_verdict review_parsed_more_work :=
  c2_first_reviewer_governs.1 two_review_workflow [] review_step_a
    [review_step_b] review_parsed_more_work rfl (by simp) (by decide)

/-- C3: for every backend behavior, run_workflow terminates (it is a total
function of the oracle), iteration_count never exceeds max_iterations — at
entry, after every loop pass, and at the end — and the final state is
COMPLETED even when the cap forces the exit. Stated for workflows whose
iteration_count does not already exceed the cap (createWorkflow starts it at
zero). -/
theorem c3_iteration_bound (o : Oracle) (w : Workflow) (n : Nat)
    (h : w.iteration_count ≤ w.max_iterations) :
    (run_workflow o w n).1.iteration_count ≤ w.max_iterations ∧
    (run_workflow o w n).1.state = WorkflowState.COMPLETED ∧
    ∀ τ ∈ run_workflow_trace o w n,
      τ.iteration_count ≤ w.max_iterations :=
  ⟨run_workflow_iteration_bound o w n h, run_workflow_final_state o w n,
   fun τ hτ => (run_workflow_trace_facts o w n τ hτ).2 h⟩

/-- Witness for C3 at a concrete always-failing run. -/
theorem c3_iteration_bound_witness :
    (run_workflow fail_oracle wf_example 0).1.iteration_count ≤
      wf_example.max_iterations ∧
    (run_workflow fail_oracle wf_example 0).1.state =
      WorkflowState.COMPLETED :=
  ⟨(c3_iteration_bound fail_oracle wf_example 0 (by decide)).1,
   (c3_iteration_bound fail_oracle wf_example 0 (by decide)).2.1⟩

/-- C4 (amended): within one invocation of the run loop a step whose status
is not "pending" (in particular a completed step) is never re-executed and
passes through every iteration unchanged; but run_workflow re-plans
unconditionally, so every invocation — including a second invocation on an
already completed workflow — strictly grows the conversation log. -/
theorem c4_skip_and_replan :
    (∀ (o : Oracle) (fuel : Nat) (p : Workflow × Nat) (j : Nat)
        (s : WorkflowStep),
      p.1.steps.get? j = some s → s.status ≠ "pending" →
      (run_loop_aux o fuel p).1.steps.get? j = some s) ∧
    (∀ (o : Oracle) (w : Workflow) (n : Nat),
      w.conversation_history.length <
        (run_workflow o w n).1.conversation_history.length) :=
  ⟨fun o fuel p j s h hs => run_loop_aux_nonpending o fuel p j s h hs,
   fun o w n => run_workflow_hist_grows o w n⟩

/-- C4 counterexample: running run_workflow a second time on a workflow that
already completed appends new conversation-log entries (the claim says it
appends none). -/
theorem c4_counterexample :
    (run_workflow fail_oracle wf_example 0).1.state =
      WorkflowState.COMPLETED ∧
    (run_workflow fail_oracle wf_example 0).1.conversation_history.length <
      (run_workflow fail_oracle
        (run_workflow fail_oracle wf_example 0).1
        (run_workflow fail_oracle wf_example 0).2).1.conversation_history.length := by
  decide

/-- Witness for C4: a completed step survives the run loop unchanged. -/
theorem c4_skip_and_replan_witness :
    (run_loop_aux fail_oracle 5 (two_research_workflow, 0)).1.steps.get? 0 =
      some research_step_1 :=
  c4_skip_and_replan.1 fail_oracle 5 (two_research_workflow, 0) 0
    research_step_1 rfl (by decide)

/-- C5 (amended): the context passed to a step always contains the
`user_request` entry; every other key holds — exactly — the output of the
LAST prior step (in list order) with a smaller step_id, truthy output_data
and that agent-role key, so an earlier same-role step's output is overwritten
rather than kept; consequently every output value in the context comes from
some step with smaller position and set output_data (failed steps, whose
output_data is never set, contribute nothing, and no step with position ≥ N
contributes). -/
theorem c5_context_characterization (w : Workflow) (step : WorkflowStep)
    (k : String) :
    ctx_get (gather_context w step) "user_request" =
      some (CtxVal.text w.user_request) ∧
    (k ≠ "user_request" →
      ctx_get (gather_context w step) k =
        (last_context_source w step k).map CtxVal.output) ∧
    (∀ r, ctx_get (gather_context w step) k = some (CtxVal.output r) →
      ∃ prev, prev ∈ w.steps ∧ prev.step_id < step.step_id ∧
        prev.output_data = some r ∧ prev.agent.value = k) := by
  obtain ⟨h1, h2⟩ := gather_context_spec w step k
  refine ⟨h1, h2, ?_⟩
  intro r hr
  by_cases hk : k = "user_request"
  · subst hk
    rw [h1] at hr
    cases hr
  · rw [h2 hk] at hr
    cases hl : last_context_source w step k with
    | none => rw [hl] at hr; cases hr
    | some r2 =>
        rw [hl] at hr
        simp only [Option.map_some'] at hr
        obtain rfl : r2 = r := by simpa using hr
        unfold last_context_source at hl
        cases hgl : (w.steps.filter (fun p =>
            decide (p.step_id < step.step_id) && p.output_data.isSome &&
              (p.agent.value == k))).getLast? with
        | none => rw [hgl] at hl; cases hl
        | some p0 =>
            rw [hgl] at hl
            simp only [Option.some_bind] at hl
            have hp0 := List.mem_of_getLast?_eq_some hgl
            rw [List.mem_filter] at hp0
            obtain ⟨hmem, hpred⟩ := hp0
            simp only [Bool.and_eq_true, decide_eq_true_eq] at hpred
            exact ⟨p0, hmem, hpred.1.1, hl, by simpa using hpred.2⟩

/-- C5 counterexample: with two completed research-role steps before
position 3, the earlier one's output is absent from the context of the
position-3 step (overwritten under the "research" key), although it is a
completed prior step — contradicting "contains the output of every completed
prior step". -/
theorem c5_counterexample :
    research_step_1 ∈ two_research_workflow.steps ∧
    research_step_1.step_id < review_step_3.step_id ∧
    research_step_1.status = "completed" ∧
    research_step_1.output_data = some research_output_a ∧
    CtxVal.output research_output_a ∉
      (gather_context two_research_workflow review_step_3).map
        (fun q => q.2) := by
  decide

/-- Witness for C5: the "research" key of the position-3 step's context is
the last qualifying research output. -/
theorem c5_context_characterization_witness :
    ctx_get (gather_context two_research_workflow review_step_3) "research" =
      (last_context_source two_research_workflow review_step_3
        "research").map CtxVal.output :=
  (c5_context_characterization two_research_workflow review_step_3
    "research").2.1 (by decide)

/-- C6: over the whole run — planning, every revision round, and the forced
final output step — step positions are exactly 1..length in list order,
hence strictly increasing and never reused; planning itself numbers 1..n;
and the planned steps' identities (position, agent, instruction) survive as
an unchanged initial segment of the final step list, i.e. later stages only
append and never delete, reorder or renumber. -/
theorem c6_step_positions (o : Oracle) (w : Workflow) (n : Nat) :
    ((run_workflow o w n).1.steps.map (fun s => s.step_id) =
      List.range' 1 (run_workflow o w n).1.steps.length) ∧
    List.Pairwise (· < ·)
      ((run_workflow o w n).1.steps.map (fun s => s.step_id)) ∧
    ((plan_workflow o n { w with state := WorkflowState.IN_PROGRESS }).1.map
        (fun s => s.step_id) =
      List.range' 1 (plan_workflow o n
        { w with state := WorkflowState.IN_PROGRESS }).1.length) ∧
    (∃ t, (run_workflow o w n).1.steps.map step_key =
      (plan_workflow o n { w with state := WorkflowState.IN_PROGRESS }).1.map
        step_key ++ t) := by
  have hids := run_workflow_ids_ok o w n
  refine ⟨hids, ?_, plan_workflow_ids o n _, ?_⟩
  · rw [hids]
    exact List.pairwise_lt_range' 1 _
  · simp only [run_workflow, run_loop]
    apply tail_keeps_steps
    rfl

/-- C7: when the generation backend raises during a step's execution the
step ends failed with its error recorded and a conversation entry is still
appended; run_workflow always ends in state COMPLETED regardless of backend
behavior; the summary's steps_failed is the count of failed steps; and a run
against a backend that raises on every call reports steps_failed at least
one. -/
theorem c7_failure_tolerance :
    (∀ (o : Oracle) (n : Nat) (w : Workflow) (i : Nat)
        (step : WorkflowStep) (e : String),
      w.steps.get? i = some step → o n = BackendReply.raises e →
      (execute_step o n w i).1.steps.get? i =
        some { step with status := "failed", error := some e } ∧
      (execute_step o n w i).1.conversation_history =
        w.conversation_history ++
          [{ step_id := step.step_id, agent := step.agent.value,
             instruction := step.instruction,
             result := { agent := step.agent.value, success := false,
                         error := some e } }]) ∧
    (∀ (o : Oracle) (w : Workflow) (n : Nat),
      (run_workflow o w n).1.state = WorkflowState.COMPLETED) ∧
    (∀ w : Workflow, (get_workflow_summary w).steps_failed =
      (w.steps.filter (fun s => s.status == "failed")).length) ∧
    (∀ o : Oracle, raising o → ∀ (w : Workflow) (n : Nat),
      1 ≤ (get_workflow_summary (run_workflow o w n).1).steps_failed) := by
  refine ⟨?_, ?_, fun w => rfl, ?_⟩
  · intro o n w i step e hstep he
    have h := execute_step_raises_spec o n w i step e hstep he
    exact ⟨h.1, h.2.1⟩
  · intro o w n
    exact run_workflow_final_state o w n
  · intro o ho w n
    exact raising_run_steps_failed o ho w n

/-- Witness for C7: the concrete always-raising run reports at least one
failed step. -/
theorem c7_failure_tolerance_witness :
    1 ≤ (get_workflow_summary
      (run_workflow fail_oracle wf_example 0).1).steps_failed :=
  c7_failure_tolerance.2.2.2 fail_oracle (fun _ => ⟨"boom", rfl⟩)
    wf_example 0

/-- C8: AgentExecutor.execute maps a raising backend call to the failure
dict (success false, error set, no raw response, no parsed value) and any
reply to the success dict carrying the raw content, with the parsed field
present exactly when the reply parsed as JSON; success is false exactly when
the call raised. -/
theorem c8_execute_result (role : AgentRole) (instr : String) (ctx : Ctx)
    (kq : Option String) :
    (∀ e, AgentExecutor.execute role instr ctx kq (BackendReply.raises e) =
      { agent := role.value, success := false, error := some e }) ∧
    (∀ c pj, AgentExecutor.execute role instr ctx kq
        (BackendReply.replies c pj) =
      { agent := role.value, raw_response := some c, parsed := pj,
        success := true }) ∧
    (∀ reply,
      (((AgentExecutor.execute role instr ctx kq reply).success = false) ↔
        ∃ e, reply = BackendReply.raises e) ∧
      ((AgentExecutor.execute role instr ctx kq reply).parsed.isSome =
        match reply with
        | BackendReply.raises _ => false
        | BackendReply.replies _ pj => pj.isSome)) := by
  refine ⟨fun e => rfl, fun c pj => rfl, ?_⟩
  intro reply
  cases reply <;> simp [AgentExecutor.execute]

/-- C9: an agent name whose upper-cased form is not a member of the AgentRole
enum resolves to RESEARCH instead of raising, and this resolution is what
both _plan_workflow applies to every planned step and _add_revision_steps
applies to every reviewer work item (the only other revision step is the
appended REVIEW step). -/
theorem c9_unknown_agent_research :
    (∀ nm : String, lookupRole nm.toUpper = none →
      resolve_agent (some nm) = AgentRole.RESEARCH) ∧
    (∀ (o : Oracle) (n : Nat) (w : Workflow) (c : String) (p : ParsedJson),
      o n = BackendReply.replies c (some p) → p.isTruthy = true →
      (plan_workflow o n w).1.map (fun s => s.agent) =
        (p.workflow_steps.getD []).map (fun si => resolve_agent si.agent)) ∧
    (∀ (w : Workflow) (st : WorkflowStep), st ∈ add_revision_steps w →
      st.agent = AgentRole.REVIEW ∨
      ∃ s ∈ w.steps, ∃ p, review_truthy_parsed s = some p ∧
        ∃ wi ∈ p.additional_work_needed.getD [],
          st.agent = resolve_agent wi.agent) :=
  ⟨resolve_agent_unknown,
   fun o n w c p hre ht => plan_workflow_agents o n w c p hre ht,
   fun w st h => add_revision_steps_agents w st h⟩

/-- Witness for C9: the planned agents of a concrete truthy plan are the
role resolutions of its named agents. -/
theorem c9_unknown_agent_research_witness :
    (plan_workflow plan_unknown_oracle 0 wf_example).1.map
        (fun s => s.agent) =
      (plan_unknown.workflow_steps.getD []).map
        (fun si => resolve_agent si.agent) :=
  c9_unknown_agent_research.2.1 plan_unknown_oracle 0 wf_example "raw"
    plan_unknown rfl rfl

/-- C10: run_workflow always returns state COMPLETED with final_output set to
some string, and no state traversed during the run is FAILED or
AWAITING_REVIEW — those two enum members are never assigned by any
orchestrator operation. -/
theorem c10_terminal_state (o : Oracle) (w : Workflow) (n : Nat) :
    (run_workflow o w n).1.state = WorkflowState.COMPLETED ∧
    (∃ s, (run_workflow o w n).1.final_output = some s) ∧
    (∀ τ ∈ run_workflow_trace o w n,
      τ.state ≠ WorkflowState.FAILED ∧
      τ.state ≠ WorkflowState.AWAITING_REVIEW) := by
  refine ⟨run_workflow_final_state o w n,
    run_workflow_final_output_isSome o w n, ?_⟩
  intro τ hτ
  rcases (run_workflow_trace_facts o w n τ hτ).1 with h | h | h <;>
    exact ⟨by rw [h]; decide, by rw [h]; decide⟩

/-- Witness for C10: the first state traversed by a concrete run is neither
FAILED nor AWAITING_REVIEW. -/
theorem c10_terminal_state_witness :
    ({ wf_example with state := WorkflowState.IN_PROGRESS } :
        Workflow).state ≠ WorkflowState.FAILED ∧
    ({ wf_example with state := WorkflowState.IN_PROGRESS } :
        Workflow).state ≠ WorkflowState.AWAITING_REVIEW :=
  (c10_terminal_state fail_oracle wf_example 0).2.2
    { wf_example with state := WorkflowState.IN_PROGRESS } (by decide)
